import Mathlib

/-!
# Pegasus metadata filter: resolution of file filters into the game registry

A shallow embedding of `src/backend/providers/pegasus_metadata/PegasusMetadataFilter.cpp`.

* Qt strings are `String`; `std::vector<T>` is `List T`.
* `HashMap` (a `std::unordered_map`) is an association list read through `at?`, which finds
  the first binding of a key; `emplace` never overwrites, as in the standard library.
* The Qt library is a parameter: what `QDirIterator` and `QFileInfo` answer about the file
  system, and what `QString::toLower` answers.
* A C++ exception (`std::out_of_range` from `.at()`) leaves the registry as it was at the
  throw, since the registry is passed by reference: `Outcome.thrown` carries that state.
* `Q_ASSERT` is compiled out, as in a release build.
-/

namespace Pegasus

/-! ## Containers -/

/-- The `HashMap<K, V>` of the code base, as a list of bindings in insertion order. -/
abbrev HashMap (K V : Type) := List (K × V)

namespace HashMap

variable {K V : Type} [DecidableEq K]

/-- Lookup, `none` where `m.at(k)` throws `std::out_of_range`. -/
def at? : HashMap K V → K → Option V
  | [], _ => none
  | (k', v) :: m, k => if k' = k then some v else at? m k

/-- Number of bindings of `k`, that is `m.count(k)`: 0 or 1. -/
def count (m : HashMap K V) (k : K) : Nat :=
  if (at? m k).isSome then 1 else 0

/-- Number of bindings, `m.size()`. -/
def size (m : HashMap K V) : Nat := m.length

/-- Insertion that keeps an existing binding, `m.emplace(k, v)`. -/
def emplace (m : HashMap K V) (k : K) (v : V) : HashMap K V :=
  if (at? m k).isSome then m else m ++ [(k, v)]

/-- Write through the reference that `m.at(k)` or `m[k]` returned. -/
def assign : HashMap K V → K → V → HashMap K V
  | [], _, _ => []
  | (k', v') :: m, k, v => if k' = k then (k', v) :: m else (k', v') :: assign m k v

/-- The keys, in insertion order. -/
def keys (m : HashMap K V) : List K := m.map Prod.fst

end HashMap

/-- Emptiness test of a `QString`. -/
def isEmpty (s : String) : Bool := decide (s = "")

/-- Modelled from the spec: the macro `VEC_CONTAINS` of `utils/StdHelpers.h`, the test whether a
value is in a list. -/
def VEC_CONTAINS (vec : List String) (val : String) : Bool := decide (val ∈ vec)

/-- Modelled from the spec: the macro `VEC_REMOVE_VALUE` of `utils/StdHelpers.h`, which takes a
value out of a list: every occurrence goes, the other values keep their order. -/
def VEC_REMOVE_VALUE (vec : List String) (val : String) : List String :=
  vec.filter (fun x => decide (x ≠ val))

/-- Modelled from the spec: the macro `VEC_REMOVE_DUPLICATES` of `utils/StdHelpers.h`, which the
spec describes as deduplication of a list: every value is kept once. -/
def VEC_REMOVE_DUPLICATES (vec : List String) : List String := vec.dedup

/-! ## Data model -/

/-- What the code reads from a `QFileInfo`. -/
structure QFileInfo where
  filePath : String
  suffix : String
  canonicalFilePath : String
deriving DecidableEq, Repr

/-- A `QRegularExpression`: its pattern and whether `rx.match(str).hasMatch()`. -/
structure QRegularExpression where
  pattern : String
  hasMatch : String → Bool

/-- What the Qt library answers: the file system as `QDirIterator` and `QFileInfo` show it, and
the case conversion of `QString`. -/
structure FileSystem where
  /-- The string `str.toLower()` of `QString::toLower`, whatever its case conversion is. -/
  toLower : String → String
  /-- Paths listed by `QDirIterator(dir, Dirs | Readable | NoDotAndDotDot,
  FollowSymlinks | Subdirectories)`: the directories below `dir`, at every depth. -/
  subdirs : String → List String
  /-- The `fileInfo()` of what `QDirIterator(dir, Files | Dirs | Readable | NoDotAndDotDot,
  FollowSymlinks)` lists: the entries directly in `dir`. -/
  entries : String → List QFileInfo
  /-- The object `QFileInfo(rootdir, file)`. -/
  fileInfoIn : String → String → QFileInfo
  /-- The object `QFileInfo(path)`. -/
  fileInfo : String → QFileInfo

/-- The fields of `modeldata::Collection` read here. -/
structure Collection where
  name : String
  launch_cmd : String
  launch_workdir : String
  relative_basedir : String
deriving DecidableEq, Repr

/-- The fields of `modeldata::Game` used here. -/
structure Game where
  fileinfo : QFileInfo
  launch_cmd : String
  launch_workdir : String
  relative_basedir : String
deriving DecidableEq, Repr

/-- Modelled from the spec: the constructor `modeldata::Game(QFileInfo)` of
`modeldata/GameData.h`; the record is seeded from the file system entry and its launch fields
start empty. -/
def Game.ofFileInfo (fileinfo : QFileInfo) : Game :=
  { fileinfo := fileinfo, launch_cmd := "", launch_workdir := "", relative_basedir := "" }

/-- One side of a filter, `FileFilterGroup`. -/
structure FileFilterGroup where
  extensions : List String
  files : List String
  regex : QRegularExpression

/-- A filter of one collection. -/
structure FileFilter where
  collection_key : String
  directories : List String
  /-- The field `include` of the source (a reserved word here). -/
  include_ : FileFilterGroup
  exclude : FileFilterGroup

/-- The registry, `providers::SearchContext`. -/
structure SearchContext where
  collections : HashMap String Collection
  games : HashMap Nat Game
  path_to_gameid : HashMap String Nat
  collection_childs : HashMap String (List Nat)
deriving DecidableEq, Repr

/-- How a call ends: it returns, or an exception leaves it; either way with the registry as the
call left it. -/
inductive Outcome where
  | done (sctx : SearchContext)
  | thrown (sctx : SearchContext)
deriving DecidableEq, Repr

/-- The registry an outcome carries. -/
def Outcome.sctx : Outcome → SearchContext
  | .done s => s
  | .thrown s => s

/-- Sequencing: the next statement runs only when no exception is in flight. -/
def Outcome.andThen (o : Outcome) (f : SearchContext → Outcome) : Outcome :=
  match o with
  | .done s => f s
  | .thrown s => .thrown s

/-! ## The functions of the source file -/

/-- Match of a regular expression with a non-empty pattern. -/
def rx_match (rx : QRegularExpression) (str : String) : Bool :=
  !isEmpty rx.pattern && rx.hasMatch str

/-- All directories below `filter_dir` except `filter_dir/media`, then `filter_dir/`. -/
def all_valid_subdirs (fs : FileSystem) (filter_dir : String) : List String :=
  if isEmpty filter_dir then []
  else
    let result := fs.subdirs filter_dir
    let media_dir := filter_dir ++ "/media"
    let result := VEC_REMOVE_VALUE result media_dir
    result ++ [filter_dir ++ "/"]

/-- Canonical paths of the listed files that exist under `rootdir`. -/
def resolve_filelist (fs : FileSystem) (files : List String) (rootdir : String) : List String :=
  files.foldl
    (fun can_paths file =>
      let finfo := fs.fileInfoIn rootdir file
      let can_path := finfo.canonicalFilePath
      if !isEmpty can_path then can_paths ++ [can_path] else can_paths)
    []

/-- The rule matcher: exclusion first, then inclusion. -/
def file_passes_filter (fs : FileSystem) (finfo : QFileInfo) (filter : FileFilter)
    (exclude_files : List String) : Bool :=
  let file_ext := fs.toLower finfo.suffix
  let exclude := VEC_CONTAINS filter.exclude.extensions file_ext
    || VEC_CONTAINS exclude_files finfo.canonicalFilePath
    || rx_match filter.exclude.regex finfo.filePath
  if exclude then false
  else
    let include_ := VEC_CONTAINS filter.include_.extensions file_ext
      || rx_match filter.include_.regex finfo.filePath
    if !include_ then false
    else true

/-- The registry merger. -/
def accept_filtered_file (fileinfo : QFileInfo) (parent : Collection)
    (sctx : SearchContext) : Outcome :=
  let game_path := fileinfo.canonicalFilePath
  let sctx :=
    if sctx.path_to_gameid.count game_path = 0 then
      let game : Game := { Game.ofFileInfo fileinfo with
        launch_cmd := parent.launch_cmd
        launch_workdir := parent.launch_workdir
        relative_basedir := parent.relative_basedir }
      let game_id := sctx.games.size
      { sctx with
        path_to_gameid := sctx.path_to_gameid.emplace game_path game_id
        games := sctx.games.emplace game_id game }
    else sctx
  match sctx.path_to_gameid.at? game_path with
  | none => .thrown sctx
  | some game_id =>
    let childs := sctx.collection_childs.emplace parent.name []
    let childs := childs.assign parent.name ((childs.at? parent.name).getD [] ++ [game_id])
    let sctx := { sctx with collection_childs := childs }
    match sctx.games.at? game_id with
    | none => .thrown sctx
    | some game =>
      let game := if isEmpty game.launch_cmd then
        { game with launch_cmd := parent.launch_cmd } else game
      let game := if isEmpty game.launch_workdir then
        { game with launch_workdir := parent.launch_workdir } else game
      let game := if isEmpty game.relative_basedir then
        { game with relative_basedir := parent.relative_basedir } else game
      .done { sctx with games := sctx.games.assign game_id game }

/-- Deduplication of the lists of every filter. -/
def tidy_filters (filters : List FileFilter) : List FileFilter :=
  filters.map fun filter =>
    { filter with
      directories := VEC_REMOVE_DUPLICATES filter.directories
      include_ := { filter.include_ with
        extensions := VEC_REMOVE_DUPLICATES filter.include_.extensions
        files := VEC_REMOVE_DUPLICATES filter.include_.files }
      exclude := { filter.exclude with
        extensions := VEC_REMOVE_DUPLICATES filter.exclude.extensions
        files := VEC_REMOVE_DUPLICATES filter.exclude.files } }

/-- The filter resolver: the walk of every directory, then the listed files. -/
def process_filter (fs : FileSystem) (filter : FileFilter) (sctx : SearchContext) : Outcome :=
  match sctx.collections.at? filter.collection_key with
  | none => .thrown sctx
  | some collection =>
    let walked := filter.directories.foldl
      (fun (acc : Outcome × List String × List String) filter_dir =>
        let dirs_to_check := all_valid_subdirs fs filter_dir
        let include_files := resolve_filelist fs filter.include_.files filter_dir
        let exclude_files := resolve_filelist fs filter.exclude.files filter_dir
        let o := dirs_to_check.foldl
          (fun o subdir =>
            (fs.entries subdir).foldl
              (fun o fileinfo =>
                if file_passes_filter fs fileinfo filter exclude_files then
                  o.andThen (accept_filtered_file fileinfo collection)
                else o)
              o)
          acc.1
        (o, acc.2.1 ++ include_files, acc.2.2 ++ exclude_files))
      (Outcome.done sctx, [], [])
    let all_include_files := VEC_REMOVE_DUPLICATES walked.2.1
    let all_exclude_files := VEC_REMOVE_DUPLICATES walked.2.2
    all_include_files.foldl
      (fun o can_path =>
        if !VEC_CONTAINS all_exclude_files can_path then
          o.andThen (accept_filtered_file (fs.fileInfo can_path) collection)
        else o)
      walked.1

/-- Every filter in turn. -/
def process_filters (fs : FileSystem) (filters : List FileFilter)
    (sctx : SearchContext) : Outcome :=
  filters.foldl (fun o filter => o.andThen (process_filter fs filter)) (Outcome.done sctx)

/-! ## The sequence of merges of one `process_filter` call -/

/-- The calls `accept_filtered_file(e, collection, sctx)` for the entries of a list, in order;
nothing runs once an exception is in flight. -/
def merge_entries (collection : Collection) (entries : List QFileInfo) (o : Outcome) : Outcome :=
  entries.foldl (fun o e => o.andThen (accept_filtered_file e collection)) o

/-- The entries the walk of one filter directory hands to the merger, in order. -/
def walk_hits (fs : FileSystem) (filter : FileFilter) (filter_dir : String) : List QFileInfo :=
  ((all_valid_subdirs fs filter_dir).flatMap fs.entries).filter
    (fun e => file_passes_filter fs e filter (resolve_filelist fs filter.exclude.files filter_dir))

/-- The resolved include or exclude files of all filter directories, deduplicated. -/
def all_files (fs : FileSystem) (files : List String) (directories : List String) :
    List String :=
  VEC_REMOVE_DUPLICATES (directories.flatMap (resolve_filelist fs files))

/-- The entries the explicit include list hands to the merger, in order. -/
def listed_hits (fs : FileSystem) (filter : FileFilter) : List QFileInfo :=
  ((all_files fs filter.include_.files filter.directories).filter
    (fun can_path =>
      !VEC_CONTAINS (all_files fs filter.exclude.files filter.directories) can_path)).map
    fs.fileInfo

/-- Every entry one `process_filter` call hands to the merger, in order. -/
def merged_entries (fs : FileSystem) (filter : FileFilter) : List QFileInfo :=
  filter.directories.flatMap (walk_hits fs filter) ++ listed_hits fs filter

/-! ## Derived descriptions -/

/-- The sticky merge of the design notes: the existing value when it is set, else the incoming
one. -/
def merge (existing incoming : String) : String :=
  if existing ≠ "" then existing else incoming

/-- Field-wise sticky merge of the launch fields of a game with those of a collection. -/
def backfill (parent : Collection) (game : Game) : Game :=
  { game with
    launch_cmd := merge game.launch_cmd parent.launch_cmd
    launch_workdir := merge game.launch_workdir parent.launch_workdir
    relative_basedir := merge game.relative_basedir parent.relative_basedir }

/-- The child list of a collection name; a missing list is empty. -/
def childs_of (sctx : SearchContext) (name : String) : List Nat :=
  (sctx.collection_childs.at? name).getD []

/-- The child lists after `collection_childs[name].emplace_back(game_id)`. -/
def add_child (childs : HashMap String (List Nat)) (name : String) (game_id : Nat) :
    HashMap String (List Nat) :=
  (childs.emplace name []).assign name
    (((childs.emplace name []).at? name).getD [] ++ [game_id])

/-- The record a first sighting creates. -/
def new_game (fileinfo : QFileInfo) (parent : Collection) : Game :=
  { fileinfo := fileinfo
    launch_cmd := parent.launch_cmd
    launch_workdir := parent.launch_workdir
    relative_basedir := parent.relative_basedir }

/-- Every id that `path_to_gameid` hands out has a record in `games`. -/
def NoDangling (sctx : SearchContext) : Prop :=
  ∀ b ∈ sctx.path_to_gameid, (sctx.games.at? b.2).isSome = true

instance (sctx : SearchContext) : Decidable (NoDangling sctx) := by
  unfold NoDangling
  infer_instance

/-- The game ids are exactly `0 .. n-1`. -/
def IdsUpTo (sctx : SearchContext) (n : Nat) : Prop :=
  sctx.games.keys.Perm (List.range n)

instance (sctx : SearchContext) (n : Nat) : Decidable (IdsUpTo sctx n) := by
  unfold IdsUpTo
  infer_instance

/-- A launch field that is set in `g` has the same value in `g'`. -/
def Game.keptBy (g g' : Game) : Prop :=
  (g.launch_cmd ≠ "" → g'.launch_cmd = g.launch_cmd) ∧
  (g.launch_workdir ≠ "" → g'.launch_workdir = g.launch_workdir) ∧
  (g.relative_basedir ≠ "" → g'.relative_basedir = g.relative_basedir)

/-- Every game of `s` is still there in `s'`, with every launch field that was set unchanged. -/
def Sticky (s s' : SearchContext) : Prop :=
  ∀ id g, s.games.at? id = some g → ∃ g', s'.games.at? id = some g' ∧ g.keptBy g'

/-- Nothing is removed from `s` to `s'`: the collections are the same, every path keeps its id,
every id keeps a record, every child list is only appended to. -/
def Grows (s s' : SearchContext) : Prop :=
  s'.collections = s.collections ∧
  (∀ p id, s.path_to_gameid.at? p = some id → s'.path_to_gameid.at? p = some id) ∧
  (∀ id, (s.games.at? id).isSome = true → (s'.games.at? id).isSome = true) ∧
  (∀ name, childs_of s name <+: childs_of s' name)

/-- The registry is well formed with `n` games: the game ids are exactly `0 .. n-1`, every id
that `path_to_gameid` gives is the id of a game, and no two paths have the same id. -/
def WellFormed (sctx : SearchContext) (n : Nat) : Prop :=
  IdsUpTo sctx n ∧
  (∀ p id, sctx.path_to_gameid.at? p = some id → (sctx.games.at? id).isSome = true) ∧
  (∀ p q id, sctx.path_to_gameid.at? p = some id → sctx.path_to_gameid.at? q = some id → p = q)

/-- A list is the tidy form of another: the same values, each once. -/
def TidyList (before after : List String) : Prop :=
  after.Nodup ∧ ∀ x, x ∈ after ↔ x ∈ before

/-- A filter is the tidy form of another: the same collection key and regexes, and the five
lists in tidy form. -/
def TidyFilter (before after : FileFilter) : Prop :=
  after.collection_key = before.collection_key ∧
  after.include_.regex = before.include_.regex ∧
  after.exclude.regex = before.exclude.regex ∧
  TidyList before.directories after.directories ∧
  TidyList before.include_.extensions after.include_.extensions ∧
  TidyList before.include_.files after.include_.files ∧
  TidyList before.exclude.extensions after.exclude.extensions ∧
  TidyList before.exclude.files after.exclude.files

/-! ## Concrete inputs -/

namespace Example

/-- An existing entry whose path is canonical. -/
def entry (path suffix : String) : QFileInfo :=
  { filePath := path, suffix := suffix, canonicalFilePath := path }

/-- What `QFileInfo` answers for a path, given the entries that exist: a path that does not
exist has an empty canonical path. -/
def info (existing : List QFileInfo) (path : String) : QFileInfo :=
  (existing.find? (fun e => decide (e.filePath = path))).getD
    { filePath := path, suffix := "", canonicalFilePath := "" }

/-- Lower-casing of the letters the examples use: the ASCII letters and `É`. -/
def lowerChar (c : Char) : Char := if c = 'É' then 'é' else c.toLower

/-- Lower-casing of the strings of the examples, letter by letter. -/
def lower (s : String) : String := String.mk (s.data.map lowerChar)

/-- The tree `/games/{a.zip, special.dat, media/cover.png, sub/b.zip}`. -/
def gamesTree : List QFileInfo :=
  [entry "/games/a.zip" "zip", entry "/games/special.dat" "dat", entry "/games/media" "",
   entry "/games/media/cover.png" "png", entry "/games/sub" "", entry "/games/sub/b.zip" "zip"]

/-- The file system of the scenarios: root `/games`. -/
def gamesFs : FileSystem where
  toLower := lower
  subdirs := fun d => if d = "/games" then ["/games/media", "/games/sub"] else []
  entries := fun d =>
    if d = "/games/" then
      [entry "/games/a.zip" "zip", entry "/games/media" "", entry "/games/special.dat" "dat",
       entry "/games/sub" ""]
    else if d = "/games/media" then [entry "/games/media/cover.png" "png"]
    else if d = "/games/sub" ∨ d = "/games/sub/" then [entry "/games/sub/b.zip" "zip"]
    else []
  fileInfoIn := fun rootdir file => info gamesTree (rootdir ++ "/" ++ file)
  fileInfo := fun path => info gamesTree path

/-- The same tree with one more directory, `/games/media/box`, holding `c.zip`. -/
def boxTree : List QFileInfo :=
  gamesTree ++ [entry "/games/media/box" "", entry "/games/media/box/c.zip" "zip"]

/-- The file system of `boxTree`. -/
def boxFs : FileSystem where
  toLower := lower
  subdirs := fun d =>
    if d = "/games" then ["/games/media", "/games/media/box", "/games/sub"] else []
  entries := fun d =>
    if d = "/games/" then
      [entry "/games/a.zip" "zip", entry "/games/media" "", entry "/games/special.dat" "dat",
       entry "/games/sub" ""]
    else if d = "/games/media" then
      [entry "/games/media/box" "", entry "/games/media/cover.png" "png"]
    else if d = "/games/media/box" then [entry "/games/media/box/c.zip" "zip"]
    else if d = "/games/sub" then [entry "/games/sub/b.zip" "zip"]
    else []
  fileInfoIn := fun rootdir file => info boxTree (rootdir ++ "/" ++ file)
  fileInfo := fun path => info boxTree path

/-- A regular expression without pattern. -/
def noRegex : QRegularExpression := { pattern := "", hasMatch := fun _ => false }

/-- A rule group without any rule. -/
def noRules : FileFilterGroup := { extensions := [], files := [], regex := noRegex }

/-- The filter of `/games` that includes the extension `zip`. -/
def zipFilter : FileFilter where
  collection_key := "retro"
  directories := ["/games"]
  include_ := { noRules with extensions := ["zip"] }
  exclude := noRules

/-- The filter `zipFilter` that also excludes the extension `zip`. -/
def zipBothFilter : FileFilter :=
  { zipFilter with exclude := { noRules with extensions := ["zip"] } }

/-- The filter of `/games` that includes the extension `éxe`. -/
def exeFilter : FileFilter :=
  { zipFilter with include_ := { noRules with extensions := ["éxe"] } }

/-- The filter `exeFilter` that also excludes the extension `éxe`. -/
def exeBothFilter : FileFilter :=
  { exeFilter with exclude := { noRules with extensions := ["éxe"] } }

/-- The filter `zipFilter` that also excludes the file `sub/b.zip`. -/
def zipFilterWithout : FileFilter :=
  { zipFilter with exclude := { noRules with files := ["sub/b.zip"] } }

/-- The filter `zipFilterWithout` over the two roots `/games/sub` and `/games`. -/
def twoRootFilter : FileFilter :=
  { zipFilterWithout with directories := ["/games/sub", "/games"] }

/-- The filter of `/games` that only lists the file `special.dat`. -/
def listFilter : FileFilter where
  collection_key := "retro"
  directories := ["/games"]
  include_ := { noRules with files := ["special.dat"] }
  exclude := noRules

/-- The filter of `/games` that excludes the extension `zip` and lists the file `a.zip`. -/
def resurrectFilter : FileFilter where
  collection_key := "retro"
  directories := ["/games"]
  include_ := { noRules with files := ["a.zip"] }
  exclude := { noRules with extensions := ["zip"] }

/-- The collection of the filters above. -/
def retro : Collection :=
  { name := "Retro", launch_cmd := "emu %f", launch_workdir := "", relative_basedir := "" }

/-- The collection `RetroA` of the scenario, with a launch command. -/
def retroA : Collection :=
  { name := "RetroA", launch_cmd := "emuA %f", launch_workdir := "", relative_basedir := "" }

/-- The collection `RetroB` of the scenario, without launch command. -/
def retroB : Collection :=
  { name := "RetroB", launch_cmd := "", launch_workdir := "/b", relative_basedir := "" }

/-- A registry that knows the collections and no game. -/
def freshRegistry : SearchContext where
  collections := [("retro", retro), ("retroA", retroA), ("retroB", retroB)]
  games := []
  path_to_gameid := []
  collection_childs := []

/-- A registry without any collection. -/
def blankRegistry : SearchContext where
  collections := []
  games := []
  path_to_gameid := []
  collection_childs := []

/-- A registry in which `/games/a.zip` is game 0, defined before its collection: the launch
command is set, the working directory is not. -/
def seededRegistry : SearchContext where
  collections := [("retro", retro), ("retroA", retroA), ("retroB", retroB)]
  games := [(0, { fileinfo := entry "/games/a.zip" "zip", launch_cmd := "own %f",
                  launch_workdir := "", relative_basedir := "" })]
  path_to_gameid := [("/games/a.zip", 0)]
  collection_childs := []

/-- The file system `gamesFs` with absolute file names: `QFileInfo(dir, file)` disregards `dir`
when `file` is an absolute path. -/
def rootedFs : FileSystem :=
  { gamesFs with
    fileInfoIn := fun rootdir file =>
      if file.data.head? = some '/' then info gamesTree file
      else info gamesTree (rootdir ++ "/" ++ file) }

/-- A filter whose only directory is the empty string and that lists `/games/a.zip`. -/
def emptyDirFilter : FileFilter where
  collection_key := "retro"
  directories := [""]
  include_ := { noRules with files := ["/games/a.zip"] }
  exclude := noRules

/-- A filter whose only directory is the empty string and that lists a file that does not
exist. -/
def emptyDirStaleFilter : FileFilter where
  collection_key := "retro"
  directories := [""]
  include_ := { noRules with extensions := ["zip"], files := ["/games/gone.zip"] }
  exclude := noRules

/-- The filter `zipFilter` that also lists the file `a.zip`, which the walk finds too. -/
def twiceFilter : FileFilter :=
  { zipFilter with include_ := { noRules with extensions := ["zip"], files := ["a.zip"] } }

/-- A filter with repeated values in its lists. -/
def untidyFilter : FileFilter where
  collection_key := "retro"
  directories := ["/games", "/games"]
  include_ := { extensions := ["zip", "7z", "zip"], files := ["a.zip", "a.zip"],
                regex := noRegex }
  exclude := { extensions := ["bak", "bak"], files := ["sub/b.zip", "x", "sub/b.zip"],
               regex := noRegex }

end Example

/-! ## Lemmas on the containers -/

namespace HashMap

variable {K V : Type} [DecidableEq K]

theorem at?_append (m m' : HashMap K V) (k : K) :
    at? (m ++ m') k = (at? m k).orElse (fun _ => at? m' k) := by
  induction m with
  | nil => simp [at?]
  | cons b m ih =>
    obtain ⟨k', v⟩ := b
    by_cases h : k' = k
    · simp [at?, h]
    · simp [at?, h, ih]

theorem at?_emplace_of_none (m : HashMap K V) (k : K) (v : V) (h : at? m k = none) :
    at? (emplace m k v) k = some v := by
  simp [emplace, h, at?_append, at?]

theorem emplace_of_none (m : HashMap K V) (k : K) (v : V) (h : at? m k = none) :
    emplace m k v = m ++ [(k, v)] := by
  simp [emplace, h]

theorem emplace_of_some (m : HashMap K V) (k : K) (v x : V) (h : at? m k = some x) :
    emplace m k v = m := by
  simp [emplace, h]

theorem at?_emplace_ne (m : HashMap K V) (k k' : K) (v : V) (h : k ≠ k') :
    at? (emplace m k v) k' = at? m k' := by
  unfold emplace
  split
  · rfl
  · simp [at?_append, at?, h]

theorem at?_emplace_of_some (m : HashMap K V) (k k' : K) (v x : V) (h : at? m k' = some x) :
    at? (emplace m k v) k' = some x := by
  unfold emplace
  split
  · exact h
  · simp [at?_append, h]

theorem at?_emplace_isSome (m : HashMap K V) (k : K) (v : V) :
    (at? (emplace m k v) k).isSome = true := by
  cases h : at? m k with
  | none => simp [at?_emplace_of_none m k v h]
  | some x => simp [at?_emplace_of_some m k k v x h]

theorem at?_assign_ne (m : HashMap K V) (k k' : K) (v : V) (h : k ≠ k') :
    at? (assign m k v) k' = at? m k' := by
  induction m with
  | nil => rfl
  | cons b m ih =>
    obtain ⟨k0, v0⟩ := b
    by_cases h0 : k0 = k
    · subst h0
      simp [assign, at?, h]
    · simp only [assign, h0, if_false, at?, ih]

theorem at?_assign_self (m : HashMap K V) (k : K) (v x : V) (h : at? m k = some x) :
    at? (assign m k v) k = some v := by
  induction m with
  | nil => simp [at?] at h
  | cons b m ih =>
    obtain ⟨k0, v0⟩ := b
    by_cases h0 : k0 = k
    · simp [assign, at?, h0]
    · simp only [at?, h0, if_false] at h
      simp only [assign, h0, if_false, at?, ih h]

theorem at?_assign_isSome (m : HashMap K V) (k k' : K) (v : V) :
    (at? (assign m k v) k').isSome = (at? m k').isSome := by
  by_cases h : k = k'
  · subst h
    cases hx : at? m k with
    | some x => simp [at?_assign_self m k v x hx]
    | none =>
      have : at? (assign m k v) k = none := by
        induction m with
        | nil => rfl
        | cons b m ih =>
          obtain ⟨k0, v0⟩ := b
          by_cases h0 : k0 = k
          · simp [at?, h0] at hx
          · simp only [at?, h0, if_false] at hx
            simp only [assign, h0, if_false, at?, ih hx]
      simp [this]
  · rw [at?_assign_ne m k k' v h]

theorem keys_assign (m : HashMap K V) (k : K) (v : V) : keys (assign m k v) = keys m := by
  induction m with
  | nil => rfl
  | cons b m ih =>
    obtain ⟨k0, v0⟩ := b
    by_cases h0 : k0 = k
    · simp [assign, keys, h0]
    · simp only [keys] at ih
      simp [assign, keys, h0, ih]

theorem size_assign (m : HashMap K V) (k : K) (v : V) : size (assign m k v) = size m := by
  have h := congrArg List.length (keys_assign m k v)
  simpa [keys, size] using h

theorem at?_isSome_iff_mem_keys (m : HashMap K V) (k : K) :
    (at? m k).isSome = true ↔ k ∈ keys m := by
  induction m with
  | nil => simp [at?, keys]
  | cons b m ih =>
    obtain ⟨k0, v0⟩ := b
    by_cases h0 : k0 = k
    · simp [at?, keys, h0]
    · simp only [keys] at ih
      simp only [at?, h0, if_false, ih, keys, List.map_cons, List.mem_cons]
      constructor
      · intro h; exact Or.inr h
      · rintro (h | h)
        · exact absurd h.symm h0
        · exact h

theorem at?_eq_none_iff (m : HashMap K V) (k : K) : at? m k = none ↔ k ∉ keys m := by
  rw [← at?_isSome_iff_mem_keys]
  cases at? m k <;> simp

theorem assign_append_of_none (m : HashMap K V) (k : K) (v v' : V) (h : at? m k = none) :
    assign (m ++ [(k, v)]) k v' = m ++ [(k, v')] := by
  induction m with
  | nil => simp [assign]
  | cons b m ih =>
    obtain ⟨k0, v0⟩ := b
    by_cases h0 : k0 = k
    · simp [at?, h0] at h
    · simp only [at?, h0, if_false] at h
      simp [assign, h0, ih h]

end HashMap

/-! ## Lemmas on the loops -/

theorem foldl_cond_andThen {α : Type} (p : α → Bool) (f : α → SearchContext → Outcome)
    (es : List α) (o : Outcome) :
    es.foldl (fun o e => if p e then o.andThen (f e) else o) o
      = (es.filter p).foldl (fun o e => o.andThen (f e)) o := by
  induction es generalizing o with
  | nil => rfl
  | cons e es ih =>
    by_cases h : p e
    · simp [List.filter, h, ih]
    · simp [List.filter, h, ih]

theorem foldl_nested {α β γ : Type} (g : γ → β → γ) (f : α → List β) (xs : List α) (o : γ) :
    xs.foldl (fun o x => (f x).foldl g o) o = (xs.flatMap f).foldl g o := by
  induction xs generalizing o with
  | nil => rfl
  | cons x xs ih => simp [List.flatMap_cons, List.foldl_append, ih]

theorem merge_entries_append (c : Collection) (xs ys : List QFileInfo) (o : Outcome) :
    merge_entries c (xs ++ ys) o = merge_entries c ys (merge_entries c xs o) := by
  simp [merge_entries, List.foldl_append]

theorem resolve_filelist_foldl (fs : FileSystem) (rootdir : String) (files acc : List String) :
    files.foldl
      (fun can_paths file =>
        let finfo := fs.fileInfoIn rootdir file
        let can_path := finfo.canonicalFilePath
        if !isEmpty can_path then can_paths ++ [can_path] else can_paths)
      acc
      = acc ++ (files.map fun file => (fs.fileInfoIn rootdir file).canonicalFilePath).filter
          (fun p => !isEmpty p) := by
  induction files generalizing acc with
  | nil => simp
  | cons f files ih =>
    simp only [List.foldl_cons, List.map_cons, ih]
    by_cases h : isEmpty (fs.fileInfoIn rootdir f).canonicalFilePath
    · simp [List.filter, h]
    · simp [List.filter, h]

theorem resolve_filelist_eq (fs : FileSystem) (files : List String) (rootdir : String) :
    resolve_filelist fs files rootdir
      = (files.map fun file => (fs.fileInfoIn rootdir file).canonicalFilePath).filter
          (fun p => !isEmpty p) := by
  unfold resolve_filelist
  rw [resolve_filelist_foldl]
  simp

theorem mem_resolve_filelist (fs : FileSystem) (files : List String) (rootdir p : String) :
    p ∈ resolve_filelist fs files rootdir
      ↔ p ≠ "" ∧ ∃ file ∈ files, (fs.fileInfoIn rootdir file).canonicalFilePath = p := by
  rw [resolve_filelist_eq]
  simp only [List.mem_filter, List.mem_map, isEmpty, Bool.not_eq_true', decide_eq_false_iff_not]
  tauto

theorem mem_all_files (fs : FileSystem) (files directories : List String) (p : String) :
    p ∈ all_files fs files directories
      ↔ ∃ d ∈ directories, p ∈ resolve_filelist fs files d := by
  simp [all_files, VEC_REMOVE_DUPLICATES, List.mem_flatMap]

/-- The loop over the filter directories, with its three accumulators taken apart. -/
theorem walk_foldl (fs : FileSystem) (filter : FileFilter) (collection : Collection)
    (directories : List String) (o : Outcome) (inc exc : List String) :
    directories.foldl
      (fun (acc : Outcome × List String × List String) filter_dir =>
        let dirs_to_check := all_valid_subdirs fs filter_dir
        let include_files := resolve_filelist fs filter.include_.files filter_dir
        let exclude_files := resolve_filelist fs filter.exclude.files filter_dir
        let o := dirs_to_check.foldl
          (fun o subdir =>
            (fs.entries subdir).foldl
              (fun o fileinfo =>
                if file_passes_filter fs fileinfo filter exclude_files then
                  o.andThen (accept_filtered_file fileinfo collection)
                else o)
              o)
          acc.1
        (o, acc.2.1 ++ include_files, acc.2.2 ++ exclude_files))
      (o, inc, exc)
      = (merge_entries collection (directories.flatMap (walk_hits fs filter)) o,
          inc ++ directories.flatMap (resolve_filelist fs filter.include_.files),
          exc ++ directories.flatMap (resolve_filelist fs filter.exclude.files)) := by
  induction directories generalizing o inc exc with
  | nil => simp [merge_entries]
  | cons d ds ih =>
    simp only [List.foldl_cons, List.flatMap_cons]
    rw [ih]
    simp only [List.append_assoc, merge_entries_append]
    congr 2
    rw [foldl_nested, foldl_cond_andThen]
    rfl

/-- A call on a registry that knows the collection is the merge, one after the other, of the
entries of `merged_entries`. -/
theorem process_filter_eq_merge (fs : FileSystem) (filter : FileFilter) (sctx : SearchContext)
    (collection : Collection)
    (hc : sctx.collections.at? filter.collection_key = some collection) :
    process_filter fs filter sctx
      = merge_entries collection (merged_entries fs filter) (Outcome.done sctx) := by
  unfold process_filter
  rw [hc]
  simp only [walk_foldl, List.nil_append]
  rw [foldl_cond_andThen, merged_entries, merge_entries_append, listed_hits, merge_entries,
    merge_entries, List.foldl_map]
  rfl

/-! ## The four ways a merge can go -/

theorem backfill_eq (parent : Collection) (game : Game) :
    (let game1 := if isEmpty game.launch_cmd then
        { game with launch_cmd := parent.launch_cmd } else game
     let game2 := if isEmpty game1.launch_workdir then
        { game1 with launch_workdir := parent.launch_workdir } else game1
     if isEmpty game2.relative_basedir then
        { game2 with relative_basedir := parent.relative_basedir } else game2)
      = backfill parent game := by
  obtain ⟨f, a, b, c⟩ := game
  by_cases ha : a = "" <;> by_cases hb : b = "" <;> by_cases hc : c = "" <;>
    simp [isEmpty, backfill, merge, ha, hb, hc]

theorem backfill_new_game (fileinfo : QFileInfo) (parent : Collection) :
    backfill parent (new_game fileinfo parent) = new_game fileinfo parent := by
  simp only [backfill, new_game, merge]
  congr 1 <;> split <;> simp_all

/-- The path is known and its game exists: the game is backfilled, the id recorded. -/
theorem accept_known (e : QFileInfo) (c : Collection) (s : SearchContext) (id : Nat) (g : Game)
    (hp : s.path_to_gameid.at? e.canonicalFilePath = some id)
    (hg : s.games.at? id = some g) :
    accept_filtered_file e c s = Outcome.done
      { s with
        collection_childs := add_child s.collection_childs c.name id
        games := s.games.assign id (backfill c g) } := by
  have hb := backfill_eq c g
  simp only at hb
  simp only [accept_filtered_file, HashMap.count, hp, hg, Option.isSome_some, if_true,
    one_ne_zero, if_false, hb]
  rfl

/-- The path is known and its id has no game: `games.at` throws after the id was recorded. -/
theorem accept_dangling (e : QFileInfo) (c : Collection) (s : SearchContext) (id : Nat)
    (hp : s.path_to_gameid.at? e.canonicalFilePath = some id)
    (hg : s.games.at? id = none) :
    accept_filtered_file e c s = Outcome.thrown
      { s with collection_childs := add_child s.collection_childs c.name id } := by
  simp only [accept_filtered_file, HashMap.count, hp, hg, Option.isSome_some, if_true,
    one_ne_zero, if_false]
  rfl

/-- The path is new and the next id is free: a game is created. -/
theorem accept_new (e : QFileInfo) (c : Collection) (s : SearchContext)
    (hp : s.path_to_gameid.at? e.canonicalFilePath = none)
    (hg : s.games.at? s.games.size = none) :
    accept_filtered_file e c s = Outcome.done
      { collections := s.collections
        games := s.games ++ [(s.games.size, new_game e c)]
        path_to_gameid := s.path_to_gameid ++ [(e.canonicalFilePath, s.games.size)]
        collection_childs := add_child s.collection_childs c.name s.games.size } := by
  have hb := backfill_eq c (new_game e c)
  rw [backfill_new_game] at hb
  simp only at hb
  have h1 := HashMap.at?_emplace_of_none s.path_to_gameid _ s.games.size hp
  have h2 := HashMap.at?_emplace_of_none s.games _ (new_game e c) hg
  have h3 := HashMap.emplace_of_none s.games _ (new_game e c) hg
  have h4 := HashMap.emplace_of_none s.path_to_gameid _ s.games.size hp
  have h5 := HashMap.assign_append_of_none s.games _ (new_game e c) (new_game e c) hg
  rw [h4] at h1
  rw [h3] at h2
  simp only [new_game] at hb h2 h3 h5
  simp only [accept_filtered_file, HashMap.count, hp, Option.isSome_none, Bool.false_eq_true,
    if_false, if_true, Game.ofFileInfo, h3, h4]
  simp only [h1, h2, hb, h5]
  rfl

/-- The path is new and the next id is taken (ids with a gap): the path joins that game. -/
theorem accept_alias (e : QFileInfo) (c : Collection) (s : SearchContext) (g : Game)
    (hp : s.path_to_gameid.at? e.canonicalFilePath = none)
    (hg : s.games.at? s.games.size = some g) :
    accept_filtered_file e c s = Outcome.done
      { collections := s.collections
        games := s.games.assign s.games.size (backfill c g)
        path_to_gameid := s.path_to_gameid ++ [(e.canonicalFilePath, s.games.size)]
        collection_childs := add_child s.collection_childs c.name s.games.size } := by
  have hb := backfill_eq c g
  simp only at hb
  have h1 := HashMap.at?_emplace_of_none s.path_to_gameid _ s.games.size hp
  have h4 := HashMap.emplace_of_none s.path_to_gameid _ s.games.size hp
  rw [h4] at h1
  simp only [accept_filtered_file, HashMap.count, hp, Option.isSome_none, Bool.false_eq_true,
    if_false, if_true, Game.ofFileInfo, h4, HashMap.emplace_of_some s.games _ _ g hg]
  simp only [h1, hg, hb]
  rfl

/-! ## What every merge keeps -/

theorem Game.keptBy_refl (g : Game) : g.keptBy g := ⟨fun _ => rfl, fun _ => rfl, fun _ => rfl⟩

theorem Game.keptBy_backfill (c : Collection) (g : Game) : g.keptBy (backfill c g) := by
  refine ⟨fun h => ?_, fun h => ?_, fun h => ?_⟩ <;> simp [backfill, merge, h]

theorem Game.keptBy_trans {g1 g2 g3 : Game} (h12 : g1.keptBy g2) (h23 : g2.keptBy g3) :
    g1.keptBy g3 := by
  obtain ⟨a1, b1, c1⟩ := h12
  obtain ⟨a2, b2, c2⟩ := h23
  refine ⟨fun h => ?_, fun h => ?_, fun h => ?_⟩
  · have e := a1 h
    rw [← e]
    exact a2 (by rw [e]; exact h)
  · have e := b1 h
    rw [← e]
    exact b2 (by rw [e]; exact h)
  · have e := c1 h
    rw [← e]
    exact c2 (by rw [e]; exact h)

theorem sticky_refl (s : SearchContext) : Sticky s s :=
  fun _ g h => ⟨g, h, Game.keptBy_refl g⟩

theorem sticky_trans {s1 s2 s3 : SearchContext} (h12 : Sticky s1 s2) (h23 : Sticky s2 s3) :
    Sticky s1 s3 := by
  intro id g h
  obtain ⟨g2, hg2, k2⟩ := h12 id g h
  obtain ⟨g3, hg3, k3⟩ := h23 id g2 hg2
  exact ⟨g3, hg3, Game.keptBy_trans k2 k3⟩

theorem sticky_assign_backfill (c : Collection) (s s' : SearchContext) (id0 : Nat) (g0 : Game)
    (h0 : s.games.at? id0 = some g0) (hs : s'.games = s.games.assign id0 (backfill c g0)) :
    Sticky s s' := by
  intro id g h
  rw [hs]
  by_cases hid : id0 = id
  · subst hid
    rw [h0] at h
    cases h
    exact ⟨_, HashMap.at?_assign_self _ _ _ _ h0, Game.keptBy_backfill c _⟩
  · exact ⟨g, by rw [HashMap.at?_assign_ne _ _ _ _ hid]; exact h, Game.keptBy_refl g⟩

theorem sticky_of_games_eq (s s' : SearchContext) (hs : s'.games = s.games) : Sticky s s' := by
  intro id g h
  exact ⟨g, by rw [hs]; exact h, Game.keptBy_refl g⟩

theorem sticky_append (s s' : SearchContext) (b : Nat × Game) (hs : s'.games = s.games ++ [b]) :
    Sticky s s' := by
  intro id g h
  exact ⟨g, by rw [hs, HashMap.at?_append, h]; rfl, Game.keptBy_refl g⟩

/-- Whatever way a merge goes, it keeps every launch field that was set. -/
theorem accept_sticky (e : QFileInfo) (c : Collection) (s : SearchContext) :
    Sticky s (accept_filtered_file e c s).sctx := by
  cases hp : s.path_to_gameid.at? e.canonicalFilePath with
  | some id =>
    cases hg : s.games.at? id with
    | some g =>
      rw [accept_known e c s id g hp hg]
      exact sticky_assign_backfill c s _ id g hg rfl
    | none =>
      rw [accept_dangling e c s id hp hg]
      exact sticky_of_games_eq s _ rfl
  | none =>
    cases hg : s.games.at? s.games.size with
    | some g =>
      rw [accept_alias e c s g hp hg]
      exact sticky_assign_backfill c s _ _ g hg rfl
    | none =>
      rw [accept_new e c s hp hg]
      exact sticky_append s _ _ rfl

/-! ## From one merge to a whole pass -/

theorem merge_entries_cons (c : Collection) (e : QFileInfo) (es : List QFileInfo) (o : Outcome) :
    merge_entries c (e :: es) o
      = merge_entries c es (o.andThen (accept_filtered_file e c)) := rfl

theorem merge_entries_thrown (c : Collection) (es : List QFileInfo) (s : SearchContext) :
    merge_entries c es (Outcome.thrown s) = Outcome.thrown s := by
  induction es with
  | nil => rfl
  | cons e es ih => rw [merge_entries_cons]; exact ih

/-- A reflexive and transitive relation that every single merge respects holds between the
registry before and after a sequence of merges. -/
theorem merge_entries_rel (R : SearchContext → SearchContext → Prop)
    (hrefl : ∀ s, R s s) (htrans : ∀ s1 s2 s3, R s1 s2 → R s2 s3 → R s1 s3)
    (c : Collection) (hstep : ∀ e s, R s (accept_filtered_file e c s).sctx)
    (es : List QFileInfo) (o : Outcome) :
    R o.sctx (merge_entries c es o).sctx := by
  induction es generalizing o with
  | nil => exact hrefl _
  | cons e es ih =>
    rw [merge_entries_cons]
    cases o with
    | done s => exact htrans _ _ _ (hstep e s) (ih _)
    | thrown s =>
      simp only [Outcome.andThen, merge_entries_thrown]
      exact hrefl _

/-- The same for one filter. -/
theorem process_filter_rel (R : SearchContext → SearchContext → Prop)
    (hrefl : ∀ s, R s s) (htrans : ∀ s1 s2 s3, R s1 s2 → R s2 s3 → R s1 s3)
    (hstep : ∀ e c s, R s (accept_filtered_file e c s).sctx)
    (fs : FileSystem) (filter : FileFilter) (s : SearchContext) :
    R s (process_filter fs filter s).sctx := by
  cases hc : s.collections.at? filter.collection_key with
  | none =>
    have : process_filter fs filter s = Outcome.thrown s := by
      unfold process_filter
      rw [hc]
    rw [this]
    exact hrefl s
  | some c =>
    rw [process_filter_eq_merge fs filter s c hc]
    exact merge_entries_rel R hrefl htrans c (hstep · c) _ (Outcome.done s)

theorem process_filters_foldl_thrown (fs : FileSystem) (filters : List FileFilter)
    (s : SearchContext) :
    filters.foldl (fun o filter => o.andThen (process_filter fs filter)) (Outcome.thrown s)
      = Outcome.thrown s := by
  induction filters with
  | nil => rfl
  | cons f filters ih => exact ih

theorem process_filters_nil (fs : FileSystem) (s : SearchContext) :
    process_filters fs [] s = Outcome.done s := rfl

theorem process_filters_cons (fs : FileSystem) (f : FileFilter) (filters : List FileFilter)
    (s : SearchContext) :
    process_filters fs (f :: filters) s
      = (process_filter fs f s).andThen (process_filters fs filters) := by
  unfold process_filters
  simp only [List.foldl_cons, Outcome.andThen]
  cases process_filter fs f s with
  | done s1 => rfl
  | thrown s1 => exact process_filters_foldl_thrown fs filters s1

/-- The same for a list of filters. -/
theorem process_filters_rel (R : SearchContext → SearchContext → Prop)
    (hrefl : ∀ s, R s s) (htrans : ∀ s1 s2 s3, R s1 s2 → R s2 s3 → R s1 s3)
    (hstep : ∀ e c s, R s (accept_filtered_file e c s).sctx)
    (fs : FileSystem) (filters : List FileFilter) (s : SearchContext) :
    R s (process_filters fs filters s).sctx := by
  induction filters generalizing s with
  | nil => exact hrefl s
  | cons f filters ih =>
    rw [process_filters_cons]
    have h1 := process_filter_rel R hrefl htrans hstep fs f s
    cases hf : process_filter fs f s with
    | done s1 =>
      rw [hf] at h1
      exact htrans _ _ _ h1 (ih s1)
    | thrown s1 =>
      rw [hf] at h1
      exact h1

/-! ## Nothing is removed, and a registry without dangling ids never throws -/

theorem HashMap.mem_of_at? {K V : Type} [DecidableEq K] (m : HashMap K V) (k : K) (v : V)
    (h : HashMap.at? m k = some v) : (k, v) ∈ m := by
  induction m with
  | nil => simp [HashMap.at?] at h
  | cons b m ih =>
    obtain ⟨k0, v0⟩ := b
    by_cases h0 : k0 = k
    · simp only [HashMap.at?, h0, if_true, Option.some.injEq] at h
      simp [h0, h]
    · simp only [HashMap.at?, h0, if_false] at h
      exact List.mem_cons_of_mem _ (ih h)

theorem at?_add_child (m : HashMap String (List Nat)) (name name' : String) (id : Nat) :
    HashMap.at? (add_child m name id) name'
      = if name' = name then some ((HashMap.at? m name).getD [] ++ [id])
        else HashMap.at? m name' := by
  unfold add_child
  by_cases h : name' = name
  · subst h
    have hs := HashMap.at?_emplace_isSome m name' []
    obtain ⟨l, hl⟩ := Option.isSome_iff_exists.mp hs
    rw [HashMap.at?_assign_self _ _ _ l hl, if_pos rfl]
    congr 2
    cases hm : HashMap.at? m name' with
    | none => rw [HashMap.at?_emplace_of_none m name' [] hm]; rfl
    | some x => rw [HashMap.at?_emplace_of_some m name' name' [] x hm]
  · rw [if_neg h, HashMap.at?_assign_ne _ _ _ _ (Ne.symm h),
      HashMap.at?_emplace_ne _ _ _ _ (Ne.symm h)]

theorem childs_of_add_child (s s' : SearchContext) (name name' : String) (id : Nat)
    (h : s'.collection_childs = add_child s.collection_childs name id) :
    childs_of s' name'
      = if name' = name then childs_of s name ++ [id] else childs_of s name' := by
  unfold childs_of
  rw [h, at?_add_child]
  split <;> simp_all

theorem grows_refl (s : SearchContext) : Grows s s :=
  ⟨rfl, fun _ _ h => h, fun _ h => h, fun _ => List.prefix_refl _⟩

theorem grows_trans {s1 s2 s3 : SearchContext} (h12 : Grows s1 s2) (h23 : Grows s2 s3) :
    Grows s1 s3 :=
  ⟨h23.1.trans h12.1, fun p id h => h23.2.1 p id (h12.2.1 p id h),
    fun id h => h23.2.2.1 id (h12.2.2.1 id h),
    fun name => (h12.2.2.2 name).trans (h23.2.2.2 name)⟩

theorem grows_childs (s s' : SearchContext) (name : String) (id : Nat)
    (h : s'.collection_childs = add_child s.collection_childs name id) (name' : String) :
    childs_of s name' <+: childs_of s' name' := by
  rw [childs_of_add_child s s' name name' id h]
  split
  · rename_i hn
    subst hn
    exact List.prefix_append _ _
  · exact List.prefix_refl _

/-- Whatever way a merge goes, it removes nothing. -/
theorem accept_grows (e : QFileInfo) (c : Collection) (s : SearchContext) :
    Grows s (accept_filtered_file e c s).sctx := by
  cases hp : s.path_to_gameid.at? e.canonicalFilePath with
  | some id =>
    cases hg : s.games.at? id with
    | some g =>
      rw [accept_known e c s id g hp hg]
      refine ⟨rfl, fun _ _ h => h, fun id' h => ?_, grows_childs s _ c.name id rfl⟩
      simp only [Outcome.sctx]
      rw [HashMap.at?_assign_isSome]
      exact h
    | none =>
      rw [accept_dangling e c s id hp hg]
      exact ⟨rfl, fun _ _ h => h, fun _ h => h, grows_childs s _ c.name id rfl⟩
  | none =>
    cases hg : s.games.at? s.games.size with
    | some g =>
      rw [accept_alias e c s g hp hg]
      refine ⟨rfl, fun p id h => ?_, fun id' h => ?_, grows_childs s _ c.name _ rfl⟩
      · simp only [Outcome.sctx]
        rw [HashMap.at?_append, h]
        rfl
      · simp only [Outcome.sctx]
        rw [HashMap.at?_assign_isSome]
        exact h
    | none =>
      rw [accept_new e c s hp hg]
      refine ⟨rfl, fun p id h => ?_, fun id' h => ?_, grows_childs s _ c.name _ rfl⟩
      · simp only [Outcome.sctx]
        rw [HashMap.at?_append, h]
        rfl
      · simp only [Outcome.sctx]
        obtain ⟨g', hg'⟩ := Option.isSome_iff_exists.mp h
        rw [HashMap.at?_append, hg']
        rfl

/-- On a registry without dangling ids a merge returns, the registry has no dangling id
afterwards, the path has an id and that id is the last child of the collection. -/
theorem accept_done (e : QFileInfo) (c : Collection) (s : SearchContext) (hs : NoDangling s) :
    ∃ s' id, accept_filtered_file e c s = Outcome.done s' ∧ NoDangling s' ∧
      s'.path_to_gameid.at? e.canonicalFilePath = some id ∧
      childs_of s' c.name = childs_of s c.name ++ [id] := by
  cases hp : s.path_to_gameid.at? e.canonicalFilePath with
  | some id =>
    have hsome := hs _ (HashMap.mem_of_at? _ _ _ hp)
    obtain ⟨g, hg⟩ := Option.isSome_iff_exists.mp hsome
    refine ⟨_, id, accept_known e c s id g hp hg, ?_, hp, ?_⟩
    · intro b hb
      simp only
      rw [HashMap.at?_assign_isSome]
      exact hs b hb
    · rw [childs_of_add_child s _ c.name c.name id rfl, if_pos rfl]
  | none =>
    cases hg : s.games.at? s.games.size with
    | some g =>
      refine ⟨_, s.games.size, accept_alias e c s g hp hg, ?_, ?_, ?_⟩
      · intro b hb
        simp only at hb ⊢
        rw [HashMap.at?_assign_isSome]
        rcases List.mem_append.mp hb with hb | hb
        · exact hs b hb
        · simp only [List.mem_singleton] at hb
          subst hb
          simp [hg]
      · simp only
        rw [HashMap.at?_append, hp]
        simp [HashMap.at?]
      · rw [childs_of_add_child s _ c.name c.name _ rfl, if_pos rfl]
    | none =>
      refine ⟨_, s.games.size, accept_new e c s hp hg, ?_, ?_, ?_⟩
      · intro b hb
        simp only at hb ⊢
        rw [HashMap.at?_append]
        rcases List.mem_append.mp hb with hb | hb
        · obtain ⟨g', hg'⟩ := Option.isSome_iff_exists.mp (hs b hb)
          rw [hg']
          rfl
        · simp only [List.mem_singleton] at hb
          subst hb
          simp [hg, HashMap.at?]
      · simp only
        rw [HashMap.at?_append, hp]
        simp [HashMap.at?]
      · rw [childs_of_add_child s _ c.name c.name _ rfl, if_pos rfl]

/-- A sequence of merges on a registry without dangling ids returns. -/
theorem merge_entries_done (c : Collection) (es : List QFileInfo) (s : SearchContext)
    (hs : NoDangling s) :
    ∃ s', merge_entries c es (Outcome.done s) = Outcome.done s' ∧ NoDangling s' := by
  induction es generalizing s with
  | nil => exact ⟨s, rfl, hs⟩
  | cons e es ih =>
    obtain ⟨s1, _, h1, hn1, _, _⟩ := accept_done e c s hs
    rw [merge_entries_cons]
    simp only [Outcome.andThen, h1]
    exact ih s1 hn1

/-- Every entry of a sequence of merges ends with a game that is a child of the collection. -/
theorem merge_entries_records (c : Collection) (es : List QFileInfo) (s s' : SearchContext)
    (hs : NoDangling s) (h : merge_entries c es (Outcome.done s) = Outcome.done s')
    (e : QFileInfo) (he : e ∈ es) :
    ∃ id, s'.path_to_gameid.at? e.canonicalFilePath = some id ∧
      (s'.games.at? id).isSome = true ∧ id ∈ childs_of s' c.name := by
  induction es generalizing s with
  | nil => simp at he
  | cons x xs ih =>
    obtain ⟨s1, id, h1, hn1, hp1, hc1⟩ := accept_done x c s hs
    rw [merge_entries_cons] at h
    simp only [Outcome.andThen, h1] at h
    rcases List.mem_cons.mp he with hx | hx
    · subst hx
      have hg := merge_entries_rel Grows grows_refl (fun _ _ _ => grows_trans) c
        (fun e s => accept_grows e c s) xs (Outcome.done s1)
      rw [h] at hg
      simp only [Outcome.sctx] at hg
      have hp' := hg.2.1 _ _ hp1
      obtain ⟨s2, h2, hn2⟩ := merge_entries_done c xs s1 hn1
      rw [h] at h2
      cases h2
      refine ⟨id, hp', hn2 _ (HashMap.mem_of_at? _ _ _ hp'), ?_⟩
      apply (hg.2.2.2 c.name).subset
      rw [hc1]
      simp
    · exact ih s1 hn1 h hx

/-! ## The filter resolver merges exactly the walk hits and the listed files -/

theorem mem_walk_hits (fs : FileSystem) (filter : FileFilter) (d : String) (e : QFileInfo) :
    e ∈ walk_hits fs filter d
      ↔ (∃ subdir ∈ all_valid_subdirs fs d, e ∈ fs.entries subdir) ∧
        file_passes_filter fs e filter (resolve_filelist fs filter.exclude.files d) = true := by
  simp [walk_hits, List.mem_filter, List.mem_flatMap]

theorem mem_listed_hits (fs : FileSystem) (filter : FileFilter) (e : QFileInfo) :
    e ∈ listed_hits fs filter
      ↔ ∃ p, e = fs.fileInfo p ∧
          (∃ d ∈ filter.directories, p ∈ resolve_filelist fs filter.include_.files d) ∧
          ¬ ∃ d ∈ filter.directories, p ∈ resolve_filelist fs filter.exclude.files d := by
  simp only [listed_hits, List.mem_map, List.mem_filter, VEC_CONTAINS, Bool.not_eq_true',
    decide_eq_false_iff_not, mem_all_files]
  constructor
  · rintro ⟨p, ⟨hi, hx⟩, rfl⟩
    exact ⟨p, rfl, hi, hx⟩
  · rintro ⟨p, rfl, hi, hx⟩
    exact ⟨p, ⟨hi, hx⟩, rfl⟩

theorem mem_merged_entries (fs : FileSystem) (filter : FileFilter) (e : QFileInfo) :
    e ∈ merged_entries fs filter
      ↔ (∃ d ∈ filter.directories, e ∈ walk_hits fs filter d) ∨ e ∈ listed_hits fs filter := by
  simp [merged_entries, List.mem_flatMap]

theorem process_filter_done (fs : FileSystem) (filter : FileFilter) (sctx : SearchContext)
    (collection : Collection)
    (hc : sctx.collections.at? filter.collection_key = some collection)
    (hs : NoDangling sctx) :
    ∃ s', process_filter fs filter sctx = Outcome.done s' ∧ NoDangling s' := by
  rw [process_filter_eq_merge fs filter sctx collection hc]
  exact merge_entries_done collection _ sctx hs

/-- C1: on a registry that knows the filter's collection, `process_filter` is the sequence of
`accept_filtered_file` calls for the entries of `merged_entries`, and an entry is in that list
exactly when (a) it is listed directly in a directory of `all_valid_subdirs d` for a filter
directory `d` and passes `file_passes_filter` with the exclude files resolved against `d`, or
(b) it is the entry of a path of `resolve_filelist include.files d` for some `d` that is in no
`resolve_filelist exclude.files d`; on a registry without dangling ids every call returns. -/
theorem C1_process_filter_merges_exactly (fs : FileSystem) (filter : FileFilter)
    (sctx : SearchContext) (collection : Collection)
    (hc : sctx.collections.at? filter.collection_key = some collection) :
    process_filter fs filter sctx
        = merge_entries collection (merged_entries fs filter) (Outcome.done sctx) ∧
    (∀ e, e ∈ merged_entries fs filter ↔
      (∃ d ∈ filter.directories, ∃ subdir ∈ all_valid_subdirs fs d, e ∈ fs.entries subdir ∧
        file_passes_filter fs e filter (resolve_filelist fs filter.exclude.files d) = true) ∨
      (∃ p, e = fs.fileInfo p ∧
        (∃ d ∈ filter.directories, p ∈ resolve_filelist fs filter.include_.files d) ∧
        ¬ ∃ d ∈ filter.directories, p ∈ resolve_filelist fs filter.exclude.files d)) ∧
    (NoDangling sctx → ∃ s', process_filter fs filter sctx = Outcome.done s') := by
  refine ⟨process_filter_eq_merge fs filter sctx collection hc, fun e => ?_, fun hs => ?_⟩
  · rw [mem_merged_entries, mem_listed_hits]
    simp only [mem_walk_hits]
    constructor
    · rintro (⟨d, hd, ⟨sub, hsub, he⟩, hp⟩ | h)
      · exact Or.inl ⟨d, hd, sub, hsub, he, hp⟩
      · exact Or.inr h
    · rintro (⟨d, hd, sub, hsub, he, hp⟩ | h)
      · exact Or.inl ⟨d, hd, ⟨sub, hsub, he⟩, hp⟩
      · exact Or.inr h
  · obtain ⟨s', h, _⟩ := process_filter_done fs filter sctx collection hc hs
    exact ⟨s', h⟩

/-- C1 on the scenario of the spec: the filter of `/games` with extension `zip` gives the
registry two games, `/games/sub/b.zip` and `/games/a.zip`. -/
theorem C1_process_filter_merges_exactly_witness :
    Example.freshRegistry.collections.at? Example.zipFilter.collection_key
        = some Example.retro ∧
    merged_entries Example.gamesFs Example.zipFilter
        = [Example.entry "/games/sub/b.zip" "zip", Example.entry "/games/a.zip" "zip"] ∧
    process_filter Example.gamesFs Example.zipFilter Example.freshRegistry
        = merge_entries Example.retro (merged_entries Example.gamesFs Example.zipFilter)
            (Outcome.done Example.freshRegistry) ∧
    (process_filter Example.gamesFs Example.zipFilter Example.freshRegistry).sctx.path_to_gameid
        = [("/games/sub/b.zip", 0), ("/games/a.zip", 1)] :=
  ⟨by decide, by decide,
    (C1_process_filter_merges_exactly Example.gamesFs Example.zipFilter Example.freshRegistry
      Example.retro (by decide)).1,
    by decide⟩

/-! ## Exclusion comes first in the rule matcher -/

/-- C2: an entry whose lower-cased extension (the `QString::toLower` of its suffix, whatever
case conversion that is) is in `exclude.extensions`, or whose canonical path is in the
exclude-file list, or whose path is matched by a non-empty `exclude.regex`, does not pass
`file_passes_filter`, whatever the include rules say. -/
theorem C2_exclude_dominates_include (fs : FileSystem) (finfo : QFileInfo)
    (filter : FileFilter) (exclude_files : List String)
    (h : fs.toLower finfo.suffix ∈ filter.exclude.extensions ∨
      finfo.canonicalFilePath ∈ exclude_files ∨
      (filter.exclude.regex.pattern ≠ "" ∧
        filter.exclude.regex.hasMatch finfo.filePath = true)) :
    file_passes_filter fs finfo filter exclude_files = false := by
  unfold file_passes_filter
  have hx : (VEC_CONTAINS filter.exclude.extensions (fs.toLower finfo.suffix)
      || VEC_CONTAINS exclude_files finfo.canonicalFilePath
      || rx_match filter.exclude.regex finfo.filePath) = true := by
    rcases h with h | h | ⟨h1, h2⟩
    · simp [VEC_CONTAINS, h]
    · simp [VEC_CONTAINS, h]
    · simp [rx_match, isEmpty, h1, h2]
  simp only [hx, if_true]

/-- C2 on an entry with extension `ZIP`, for a filter that both includes and excludes `zip`,
and on an entry with extension `ÉXE`, for a filter that both includes and excludes `éxe`. -/
theorem C2_exclude_dominates_include_witness :
    (Example.gamesFs.toLower (Example.entry "/games/A.ZIP" "ZIP").suffix
        ∈ Example.zipBothFilter.include_.extensions ∧
      file_passes_filter Example.gamesFs (Example.entry "/games/A.ZIP" "ZIP")
        Example.zipBothFilter [] = false) ∧
    (Example.gamesFs.toLower (Example.entry "/games/B.ÉXE" "ÉXE").suffix
        ∈ Example.exeBothFilter.include_.extensions ∧
      file_passes_filter Example.gamesFs (Example.entry "/games/B.ÉXE" "ÉXE")
        Example.exeBothFilter [] = false) :=
  ⟨⟨by decide,
      C2_exclude_dominates_include Example.gamesFs (Example.entry "/games/A.ZIP" "ZIP")
        Example.zipBothFilter [] (Or.inl (by decide))⟩,
    ⟨by decide,
      C2_exclude_dominates_include Example.gamesFs (Example.entry "/games/B.ÉXE" "ÉXE")
        Example.exeBothFilter [] (Or.inl (by decide))⟩⟩

/-! ## Launch fields that are set stay as they are -/

/-- C3: `accept_filtered_file`, `process_filter` and `process_filters` keep every game and
every launch field (`launch_cmd`, `launch_workdir`, `relative_basedir`) that was non-empty
before, whether the call returns or throws; and when a collection with a launch command merges
a new path and any other collection merges the same path afterwards, the game has the launch
command of the first. -/
theorem C3_set_fields_are_sticky :
    (∀ (e : QFileInfo) (c : Collection) (s : SearchContext),
      Sticky s (accept_filtered_file e c s).sctx) ∧
    (∀ (fs : FileSystem) (filter : FileFilter) (s : SearchContext),
      Sticky s (process_filter fs filter s).sctx) ∧
    (∀ (fs : FileSystem) (filters : List FileFilter) (s : SearchContext),
      Sticky s (process_filters fs filters s).sctx) ∧
    (∀ (e : QFileInfo) (a b : Collection) (s : SearchContext),
      s.path_to_gameid.at? e.canonicalFilePath = none →
      s.games.at? s.games.size = none →
      a.launch_cmd ≠ "" →
      ∃ s1 s2 g, accept_filtered_file e a s = Outcome.done s1 ∧
        accept_filtered_file e b s1 = Outcome.done s2 ∧
        s2.path_to_gameid.at? e.canonicalFilePath = some s.games.size ∧
        s2.games.at? s.games.size = some g ∧ g.launch_cmd = a.launch_cmd) := by
  refine ⟨accept_sticky, ?_, ?_, ?_⟩
  · exact process_filter_rel Sticky sticky_refl (fun _ _ _ => sticky_trans) accept_sticky
  · exact process_filters_rel Sticky sticky_refl (fun _ _ _ => sticky_trans) accept_sticky
  · intro e a b s hp hg ha
    have h1 := accept_new e a s hp hg
    have hp1 : (s.path_to_gameid ++ [(e.canonicalFilePath, s.games.size)]).at?
        e.canonicalFilePath = some s.games.size := by
      rw [HashMap.at?_append, hp]
      simp [HashMap.at?]
    have hg1 : (s.games ++ [(s.games.size, new_game e a)]).at? s.games.size
        = some (new_game e a) := by
      rw [HashMap.at?_append, hg]
      simp [HashMap.at?]
    refine ⟨_, _, backfill b (new_game e a), h1, accept_known e b _ _ _ hp1 hg1, hp1, ?_, ?_⟩
    · exact HashMap.at?_assign_self _ _ _ _ hg1
    · simp [backfill, merge, new_game, ha]

/-- C3 on the scenario of the spec: `RetroA` merges `/games/a.zip` first, `RetroB` afterwards,
and the launch command is the one of `RetroA`. -/
theorem C3_set_fields_are_sticky_witness :
    ∃ s1 s2 g,
      accept_filtered_file (Example.entry "/games/a.zip" "zip") Example.retroA
        Example.freshRegistry = Outcome.done s1 ∧
      accept_filtered_file (Example.entry "/games/a.zip" "zip") Example.retroB s1
        = Outcome.done s2 ∧
      s2.path_to_gameid.at? "/games/a.zip" = some 0 ∧
      s2.games.at? 0 = some g ∧ g.launch_cmd = "emuA %f" :=
  C3_set_fields_are_sticky.2.2.2 (Example.entry "/games/a.zip" "zip") Example.retroA
    Example.retroB Example.freshRegistry (by decide) (by decide) (by decide)

/-! ## The `media` directory -/

theorem append_ne_append (s a b : String) (h : a ≠ b) : s ++ a ≠ s ++ b := by
  intro he
  apply h
  have hd := congrArg String.data he
  simp only [String.data_append] at hd
  exact String.ext (List.append_cancel_left hd)

theorem media_not_in_all_valid_subdirs (fs : FileSystem) (root : String) :
    root ++ "/media" ∉ all_valid_subdirs fs root := by
  unfold all_valid_subdirs
  split
  · simp
  · simp only [VEC_REMOVE_VALUE, List.mem_append, List.mem_filter, List.mem_singleton]
    rintro (⟨_, h⟩ | h)
    · simp at h
    · exact append_ne_append root "/media" "/" (by decide) h

/-- C4: the directory `root/media` itself is never among `all_valid_subdirs fs root`, but a
directory beneath it is: with `/games/media/box/c.zip` on disk, `/games/media/box` is returned
for the root `/games`, and the filter with extension `zip` merges `/games/media/box/c.zip`. -/
theorem C4_media_subtree_is_walked :
    (∀ (fs : FileSystem) (root : String), root ++ "/media" ∉ all_valid_subdirs fs root) ∧
    Example.boxFs.subdirs "/games" = ["/games/media", "/games/media/box", "/games/sub"] ∧
    all_valid_subdirs Example.boxFs "/games" = ["/games/media/box", "/games/sub", "/games/"] ∧
    Example.entry "/games/media/box/c.zip" "zip"
      ∈ merged_entries Example.boxFs Example.zipFilter ∧
    (process_filter Example.boxFs Example.zipFilter Example.freshRegistry).sctx.path_to_gameid
      = [("/games/media/box/c.zip", 0), ("/games/sub/b.zip", 1), ("/games/a.zip", 2)] :=
  ⟨media_not_in_all_valid_subdirs, by decide, by decide, by decide, by decide⟩

/-! ## The explicit include list -/

/-- C5: on a registry that knows the filter's collection and has no dangling id, a file of
`include.files` that resolves against a filter directory to an existing canonical path `p`
(canonical in the file system: `QFileInfo(p)` has canonical path `p`) that is in no resolved
exclude-file list is merged by `process_filter`: the call returns, `p` has a game and the id of
that game is a child of the collection, whatever the include extensions and regex are. -/
theorem C5_listed_file_is_merged (fs : FileSystem) (filter : FileFilter) (sctx : SearchContext)
    (collection : Collection)
    (hc : sctx.collections.at? filter.collection_key = some collection)
    (hs : NoDangling sctx)
    (file d : String) (hf : file ∈ filter.include_.files) (hd : d ∈ filter.directories)
    (hexists : (fs.fileInfoIn d file).canonicalFilePath ≠ "")
    (hcan : (fs.fileInfo (fs.fileInfoIn d file).canonicalFilePath).canonicalFilePath
      = (fs.fileInfoIn d file).canonicalFilePath)
    (hnot : ∀ d' ∈ filter.directories,
      (fs.fileInfoIn d file).canonicalFilePath ∉ resolve_filelist fs filter.exclude.files d') :
    ∃ s' id, process_filter fs filter sctx = Outcome.done s' ∧
      s'.path_to_gameid.at? (fs.fileInfoIn d file).canonicalFilePath = some id ∧
      (s'.games.at? id).isSome = true ∧
      id ∈ childs_of s' collection.name := by
  obtain ⟨s', hdone, _⟩ := process_filter_done fs filter sctx collection hc hs
  have hmem : fs.fileInfo (fs.fileInfoIn d file).canonicalFilePath
      ∈ merged_entries fs filter := by
    rw [mem_merged_entries, mem_listed_hits]
    refine Or.inr ⟨_, rfl, ⟨d, hd, ?_⟩, ?_⟩
    · rw [mem_resolve_filelist]
      exact ⟨hexists, file, hf, rfl⟩
    · rintro ⟨d', hd', h⟩
      exact hnot d' hd' h
  have hm := hdone
  rw [process_filter_eq_merge fs filter sctx collection hc] at hm
  obtain ⟨id, h1, h2, h3⟩ := merge_entries_records collection _ sctx s' hs hm _ hmem
  rw [hcan] at h1
  exact ⟨s', id, hdone, h1, h2, h3⟩

/-- C5 on the scenario of the spec: the filter without include extension and regex that
lists `special.dat` adds `/games/special.dat`. -/
theorem C5_listed_file_is_merged_witness :
    Example.listFilter.include_.extensions = [] ∧
    Example.listFilter.include_.regex.pattern = "" ∧
    ∃ s' id, process_filter Example.gamesFs Example.listFilter Example.freshRegistry
        = Outcome.done s' ∧
      s'.path_to_gameid.at? "/games/special.dat" = some id ∧
      (s'.games.at? id).isSome = true ∧
      id ∈ childs_of s' "Retro" :=
  ⟨rfl, rfl,
    C5_listed_file_is_merged Example.gamesFs Example.listFilter Example.freshRegistry
      Example.retro (by decide) (by decide) "special.dat" "/games" (by decide) (by decide)
      (by decide) (by decide) (by decide)⟩

/-! ## Excluded files -/

/-- C6 fails for a filter with two directories: with the roots `/games/sub` and `/games` and
`exclude.files = [sub/b.zip]`, the path `/games/sub/b.zip` is in the resolved exclude-file
set (resolved against `/games`) and is merged all the same, by the walk of `/games/sub`. -/
theorem C6_counterexample :
    "/games/sub/b.zip" ∈ all_files Example.gamesFs Example.twoRootFilter.exclude.files
        Example.twoRootFilter.directories ∧
    (Example.entry "/games/sub/b.zip" "zip").canonicalFilePath = "/games/sub/b.zip" ∧
    Example.entry "/games/sub/b.zip" "zip"
      ∈ merged_entries Example.gamesFs Example.twoRootFilter ∧
    (process_filter Example.gamesFs Example.twoRootFilter
        Example.freshRegistry).sctx.path_to_gameid
      = [("/games/sub/b.zip", 0), ("/games/a.zip", 1)] :=
  ⟨by decide, rfl, by decide, by decide⟩

theorem walk_hit_not_excluded (fs : FileSystem) (filter : FileFilter) (d : String)
    (e : QFileInfo) (h : e ∈ walk_hits fs filter d) :
    fs.toLower e.suffix ∉ filter.exclude.extensions ∧
    e.canonicalFilePath ∉ resolve_filelist fs filter.exclude.files d ∧
    rx_match filter.exclude.regex e.filePath = false := by
  have hp := ((mem_walk_hits fs filter d e).mp h).2
  unfold file_passes_filter at hp
  simp only at hp
  split at hp
  · simp at hp
  · rename_i hx
    simp only [VEC_CONTAINS, Bool.or_eq_true, decide_eq_true_eq, not_or] at hx
    exact ⟨hx.1.1, hx.1.2, by simpa using hx.2⟩

/-- C6, amended: the walk of a filter directory `d` merges no entry whose canonical path is
in `exclude.files` resolved against that same `d`, and the explicit include list merges no path
that is in `exclude.files` resolved against any filter directory; hence, for a filter with one
directory (and canonical paths that `QFileInfo` maps to themselves), no entry whose canonical
path is in the resolved exclude-file set is merged. -/
theorem C6_excluded_files_are_not_merged (fs : FileSystem) (filter : FileFilter)
    (sctx : SearchContext) (collection : Collection)
    (hc : sctx.collections.at? filter.collection_key = some collection) :
    process_filter fs filter sctx
        = merge_entries collection (merged_entries fs filter) (Outcome.done sctx) ∧
    (∀ e ∈ merged_entries fs filter,
      (∃ d ∈ filter.directories, (∃ subdir ∈ all_valid_subdirs fs d, e ∈ fs.entries subdir) ∧
        e.canonicalFilePath ∉ resolve_filelist fs filter.exclude.files d) ∨
      (∃ p, e = fs.fileInfo p ∧
        p ∉ all_files fs filter.exclude.files filter.directories)) ∧
    (∀ d, filter.directories = [d] →
      (∀ p ∈ resolve_filelist fs filter.include_.files d,
        (fs.fileInfo p).canonicalFilePath = p) →
      ∀ e ∈ merged_entries fs filter,
        e.canonicalFilePath ∉ all_files fs filter.exclude.files filter.directories) := by
  refine ⟨process_filter_eq_merge fs filter sctx collection hc, fun e he => ?_,
    fun d hd hcan e he => ?_⟩
  · rcases (mem_merged_entries fs filter e).mp he with ⟨d, hd, hw⟩ | hl
    · exact Or.inl ⟨d, hd, ((mem_walk_hits fs filter d e).mp hw).1,
        (walk_hit_not_excluded fs filter d e hw).2.1⟩
    · obtain ⟨p, rfl, _, hx⟩ := (mem_listed_hits fs filter e).mp hl
      exact Or.inr ⟨p, rfl, by rw [mem_all_files]; exact hx⟩
  · rw [mem_all_files]
    rcases (mem_merged_entries fs filter e).mp he with ⟨d', hd', hw⟩ | hl
    · rintro ⟨d'', hd'', hx⟩
      rw [hd] at hd' hd''
      simp only [List.mem_singleton] at hd' hd''
      subst hd' hd''
      exact (walk_hit_not_excluded fs filter _ e hw).2.1 hx
    · obtain ⟨p, rfl, ⟨d', hd', hi⟩, hx⟩ := (mem_listed_hits fs filter e).mp hl
      rw [hd] at hd'
      simp only [List.mem_singleton] at hd'
      subst hd'
      rw [hcan p hi]
      exact hx

/-- C6 on the scenario of the spec: with `exclude.files = [sub/b.zip]` and the one root
`/games`, the excluded path is not merged and only `/games/a.zip` is added. -/
theorem C6_excluded_files_are_not_merged_witness :
    (∀ e ∈ merged_entries Example.gamesFs Example.zipFilterWithout,
      e.canonicalFilePath ∉ all_files Example.gamesFs Example.zipFilterWithout.exclude.files
        Example.zipFilterWithout.directories) ∧
    all_files Example.gamesFs Example.zipFilterWithout.exclude.files
        Example.zipFilterWithout.directories = ["/games/sub/b.zip"] ∧
    (process_filter Example.gamesFs Example.zipFilterWithout
        Example.freshRegistry).sctx.path_to_gameid = [("/games/a.zip", 0)] :=
  ⟨(C6_excluded_files_are_not_merged Example.gamesFs Example.zipFilterWithout
      Example.freshRegistry Example.retro (by decide)).2.2 "/games" rfl (by decide),
    by decide, by decide⟩

/-! ## Exclusion by extension or regex and the explicit include list -/

/-- C7 fails for a listed file: the filter that excludes the extension `zip` and lists
`a.zip` in `include.files` merges `/games/a.zip`, an entry with an excluded extension. -/
theorem C7_counterexample :
    Example.gamesFs.toLower (Example.gamesFs.fileInfo "/games/a.zip").suffix
      ∈ Example.resurrectFilter.exclude.extensions ∧
    Example.gamesFs.fileInfo "/games/a.zip"
      ∈ merged_entries Example.gamesFs Example.resurrectFilter ∧
    process_filter Example.gamesFs Example.resurrectFilter Example.freshRegistry
      = Outcome.done
          { Example.freshRegistry with
            games := [(0, new_game (Example.entry "/games/a.zip" "zip") Example.retro)]
            path_to_gameid := [("/games/a.zip", 0)]
            collection_childs := [("Retro", [0])] } :=
  ⟨by decide, by decide, by decide⟩

/-- C7, amended: the directory walk of `process_filter` merges no entry whose lower-cased
extension is in `exclude.extensions` or whose path is matched by `exclude.regex`; such an entry
is merged only as a path of the resolved `include.files` that is in no resolved exclude-file
list. -/
theorem C7_excluded_entry_only_from_list (fs : FileSystem) (filter : FileFilter)
    (sctx : SearchContext) (collection : Collection)
    (hc : sctx.collections.at? filter.collection_key = some collection) :
    process_filter fs filter sctx
        = merge_entries collection (merged_entries fs filter) (Outcome.done sctx) ∧
    (∀ e ∈ merged_entries fs filter,
      (fs.toLower e.suffix ∈ filter.exclude.extensions ∨
        rx_match filter.exclude.regex e.filePath = true) →
      (¬ ∃ d ∈ filter.directories, ∃ subdir ∈ all_valid_subdirs fs d, e ∈ fs.entries subdir ∧
        file_passes_filter fs e filter (resolve_filelist fs filter.exclude.files d) = true) ∧
      ∃ p, e = fs.fileInfo p ∧
        (∃ d ∈ filter.directories, p ∈ resolve_filelist fs filter.include_.files d) ∧
        ¬ ∃ d ∈ filter.directories, p ∈ resolve_filelist fs filter.exclude.files d) := by
  refine ⟨process_filter_eq_merge fs filter sctx collection hc, fun e he hx => ?_⟩
  have hnw : ∀ d, e ∉ walk_hits fs filter d := by
    intro d hw
    have h := walk_hit_not_excluded fs filter d e hw
    rcases hx with hx | hx
    · exact h.1 hx
    · rw [h.2.2] at hx
      exact Bool.false_ne_true hx
  constructor
  · rintro ⟨d, _, sub, hsub, hent, hp⟩
    exact hnw d ((mem_walk_hits fs filter d e).mpr ⟨⟨sub, hsub, hent⟩, hp⟩)
  · rcases (mem_merged_entries fs filter e).mp he with ⟨d, _, hw⟩ | hl
    · exact absurd hw (hnw d)
    · exact (mem_listed_hits fs filter e).mp hl

/-- C7, amended, on the listed file `a.zip` with the excluded extension `zip`: it is merged
as a listed file, not by the walk. -/
theorem C7_excluded_entry_only_from_list_witness :
    ∃ p, Example.gamesFs.fileInfo "/games/a.zip" = Example.gamesFs.fileInfo p ∧
      (∃ d ∈ Example.resurrectFilter.directories,
        p ∈ resolve_filelist Example.gamesFs Example.resurrectFilter.include_.files d) ∧
      ¬ ∃ d ∈ Example.resurrectFilter.directories,
        p ∈ resolve_filelist Example.gamesFs Example.resurrectFilter.exclude.files d :=
  ((C7_excluded_entry_only_from_list Example.gamesFs Example.resurrectFilter
      Example.freshRegistry Example.retro (by decide)).2
    (Example.gamesFs.fileInfo "/games/a.zip") (by decide) (Or.inl (by decide))).2

/-! ## A filter whose collection is missing -/

/-- C8 fails: on a registry without the filter's collection, `process_filter` does not
return; the lookup `collections.at` throws. -/
theorem C8_counterexample :
    Example.blankRegistry.collections.at? Example.zipFilter.collection_key = none ∧
    process_filter Example.gamesFs Example.zipFilter Example.blankRegistry
      ≠ Outcome.done Example.blankRegistry ∧
    process_filter Example.gamesFs Example.zipFilter Example.blankRegistry
      = Outcome.thrown Example.blankRegistry :=
  ⟨by decide, by decide, by decide⟩

/-- C8, amended: when the filter's collection key is not a key of `collections`,
`process_filter` throws the error of the failed lookup before it reads the file system or
touches the registry: the registry at the throw is the one it was given. -/
theorem C8_missing_collection_throws (fs : FileSystem) (filter : FileFilter)
    (sctx : SearchContext)
    (h : sctx.collections.at? filter.collection_key = none) :
    process_filter fs filter sctx = Outcome.thrown sctx := by
  unfold process_filter
  rw [h]

/-- C8, amended, on the registry without collections. -/
theorem C8_missing_collection_throws_witness :
    Example.blankRegistry.collections.at? Example.zipFilter.collection_key = none ∧
    process_filter Example.gamesFs Example.zipFilter Example.blankRegistry
      = Outcome.thrown Example.blankRegistry :=
  ⟨by decide,
    C8_missing_collection_throws Example.gamesFs Example.zipFilter Example.blankRegistry
      (by decide)⟩

/-! ## A first sighting creates one game -/

theorem IdsUpTo.size_eq {s : SearchContext} {n : Nat} (h : IdsUpTo s n) : s.games.size = n := by
  have hl := h.length_eq
  simpa [HashMap.keys, HashMap.size] using hl

theorem IdsUpTo.at?_size {s : SearchContext} {n : Nat} (h : IdsUpTo s n) :
    s.games.at? s.games.size = none := by
  rw [h.size_eq, HashMap.at?_eq_none_iff, h.mem_iff]
  simp

/-- C9: on a registry whose game ids are exactly `0 .. n-1`, the merge of an entry whose
canonical path has no id returns and creates exactly one game: the path gets the id `n`, there
are `n + 1` games with the ids `0 .. n`, the game `n` is the entry with the launch fields of the
collection, and no other game and no other path changes. -/
theorem C9_new_path_creates_one_game (e : QFileInfo) (c : Collection) (s : SearchContext)
    (n : Nat) (hids : IdsUpTo s n)
    (hp : s.path_to_gameid.at? e.canonicalFilePath = none) :
    ∃ s', accept_filtered_file e c s = Outcome.done s' ∧
      s'.path_to_gameid.at? e.canonicalFilePath = some n ∧
      s'.games.size = n + 1 ∧
      IdsUpTo s' (n + 1) ∧
      s'.games.at? n = some
        { fileinfo := e
          launch_cmd := c.launch_cmd
          launch_workdir := c.launch_workdir
          relative_basedir := c.relative_basedir } ∧
      (∀ id, id ≠ n → s'.games.at? id = s.games.at? id) ∧
      (∀ p, p ≠ e.canonicalFilePath → s'.path_to_gameid.at? p = s.path_to_gameid.at? p) := by
  have hg := hids.at?_size
  have hn := hids.size_eq
  refine ⟨_, accept_new e c s hp hg, ?_, ?_, ?_, ?_, ?_, ?_⟩
  · simp only
    rw [HashMap.at?_append, hp, hn]
    simp [HashMap.at?]
  · simp only [HashMap.size, List.length_append, List.length_singleton]
    rw [← hn]
    rfl
  · simp only [IdsUpTo, HashMap.keys, List.map_append, List.map_cons, List.map_nil, hn,
      List.range_succ]
    exact List.Perm.append_right _ hids
  · simp only
    rw [← hn, HashMap.at?_append, hg]
    simp [HashMap.at?, new_game]
  · intro id hid
    simp only
    rw [HashMap.at?_append, hn]
    cases s.games.at? id with
    | some g => rfl
    | none => simp [HashMap.at?, Ne.symm hid]
  · intro p hne
    simp only
    rw [HashMap.at?_append]
    cases s.path_to_gameid.at? p with
    | some g => rfl
    | none => simp [HashMap.at?, Ne.symm hne]

/-- C9 on a registry with one game: the new path `/games/sub/b.zip` becomes game 1. -/
theorem C9_new_path_creates_one_game_witness :
    IdsUpTo Example.seededRegistry 1 ∧
    ∃ s', accept_filtered_file (Example.entry "/games/sub/b.zip" "zip") Example.retro
        Example.seededRegistry = Outcome.done s' ∧
      s'.path_to_gameid.at? "/games/sub/b.zip" = some 1 ∧
      s'.games.size = 2 ∧
      IdsUpTo s' 2 ∧
      s'.games.at? 1 = some
        { fileinfo := Example.entry "/games/sub/b.zip" "zip"
          launch_cmd := "emu %f"
          launch_workdir := ""
          relative_basedir := "" } ∧
      (∀ id, id ≠ 1 → s'.games.at? id = Example.seededRegistry.games.at? id) ∧
      (∀ p, p ≠ "/games/sub/b.zip" →
        s'.path_to_gameid.at? p = Example.seededRegistry.path_to_gameid.at? p) :=
  ⟨by decide,
    C9_new_path_creates_one_game (Example.entry "/games/sub/b.zip" "zip") Example.retro
      Example.seededRegistry 1 (by decide) (by decide)⟩

/-! ## A known path is backfilled -/

/-- C10: when the canonical path of the entry has the id `id` and `id` has the game `g`, the
merge returns, and the game of `id` is `g` with each launch field merged with the one of the
collection by `merge`: the old value when it was not empty, the value of the collection when it
was; `path_to_gameid` and the ids of `games` are as before and no other game changes. -/
theorem C10_known_path_is_backfilled (e : QFileInfo) (c : Collection) (s : SearchContext)
    (id : Nat) (g : Game)
    (hp : s.path_to_gameid.at? e.canonicalFilePath = some id)
    (hg : s.games.at? id = some g) :
    ∃ s' g', accept_filtered_file e c s = Outcome.done s' ∧
      s'.games.at? id = some g' ∧
      g'.fileinfo = g.fileinfo ∧
      g'.launch_cmd = merge g.launch_cmd c.launch_cmd ∧
      g'.launch_workdir = merge g.launch_workdir c.launch_workdir ∧
      g'.relative_basedir = merge g.relative_basedir c.relative_basedir ∧
      (g.launch_cmd ≠ "" → g'.launch_cmd = g.launch_cmd) ∧
      (g.launch_cmd = "" → g'.launch_cmd = c.launch_cmd) ∧
      (g.launch_workdir ≠ "" → g'.launch_workdir = g.launch_workdir) ∧
      (g.launch_workdir = "" → g'.launch_workdir = c.launch_workdir) ∧
      (g.relative_basedir ≠ "" → g'.relative_basedir = g.relative_basedir) ∧
      (g.relative_basedir = "" → g'.relative_basedir = c.relative_basedir) ∧
      s'.path_to_gameid = s.path_to_gameid ∧
      s'.games.keys = s.games.keys ∧
      s'.games.size = s.games.size ∧
      (∀ id', id' ≠ id → s'.games.at? id' = s.games.at? id') := by
  refine ⟨_, backfill c g, accept_known e c s id g hp hg,
    HashMap.at?_assign_self _ _ _ _ hg, rfl, rfl, rfl, rfl, ?_, ?_, ?_, ?_, ?_, ?_, rfl,
    HashMap.keys_assign _ _ _, HashMap.size_assign _ _ _, ?_⟩
  · intro h; simp [backfill, merge, h]
  · intro h; simp [backfill, merge, h]
  · intro h; simp [backfill, merge, h]
  · intro h; simp [backfill, merge, h]
  · intro h; simp [backfill, merge, h]
  · intro h; simp [backfill, merge, h]
  · intro id' hne
    exact HashMap.at?_assign_ne _ _ _ _ (Ne.symm hne)

/-- C10 on the game `/games/a.zip` that was defined before its collection: `RetroB` fills the
empty working directory and leaves the launch command. -/
theorem C10_known_path_is_backfilled_witness :
    ∃ s' g', accept_filtered_file (Example.entry "/games/a.zip" "zip") Example.retroB
        Example.seededRegistry = Outcome.done s' ∧
      s'.games.at? 0 = some g' ∧
      g'.launch_cmd = "own %f" ∧
      g'.launch_workdir = "/b" ∧
      s'.path_to_gameid = [("/games/a.zip", 0)] ∧
      s'.games.size = 1 := by
  obtain ⟨s', g', h, hg, _, h1, h2, _, _, _, _, _, _, _, h3, _, h4, _⟩ :=
    C10_known_path_is_backfilled (Example.entry "/games/a.zip" "zip") Example.retroB
      Example.seededRegistry 0
      { fileinfo := Example.entry "/games/a.zip" "zip", launch_cmd := "own %f",
        launch_workdir := "", relative_basedir := "" }
      (by decide) (by decide)
  exact ⟨s', g', h, hg, h1, h2, h3, h4⟩

/-! ## The child list of the collection -/

/-- Whatever way a merge goes, the path has an id afterwards and that id was appended to the
child list. -/
theorem accept_childs (e : QFileInfo) (c : Collection) (s : SearchContext) :
    ∃ id, (accept_filtered_file e c s).sctx.path_to_gameid.at? e.canonicalFilePath = some id ∧
      (accept_filtered_file e c s).sctx.collection_childs
        = add_child s.collection_childs c.name id := by
  cases hp : s.path_to_gameid.at? e.canonicalFilePath with
  | some id =>
    cases hg : s.games.at? id with
    | some g =>
      rw [accept_known e c s id g hp hg]
      exact ⟨id, hp, rfl⟩
    | none =>
      rw [accept_dangling e c s id hp hg]
      exact ⟨id, hp, rfl⟩
  | none =>
    have hnew : (s.path_to_gameid ++ [(e.canonicalFilePath, s.games.size)]).at?
        e.canonicalFilePath = some s.games.size := by
      rw [HashMap.at?_append, hp]
      simp [HashMap.at?]
    cases hg : s.games.at? s.games.size with
    | some g =>
      rw [accept_alias e c s g hp hg]
      exact ⟨_, hnew, rfl⟩
    | none =>
      rw [accept_new e c s hp hg]
      exact ⟨_, hnew, rfl⟩

/-- C11: `accept_filtered_file` appends exactly one element to the child list of
`collection.name` (a missing list counts as empty): the id that `path_to_gameid` gives to the
canonical path of the entry after the call; the child list of every other name is as before. -/
theorem C11_one_child_is_appended (e : QFileInfo) (c : Collection) (s : SearchContext) :
    ∃ id, (accept_filtered_file e c s).sctx.path_to_gameid.at? e.canonicalFilePath = some id ∧
      childs_of (accept_filtered_file e c s).sctx c.name = childs_of s c.name ++ [id] ∧
      ∀ name, name ≠ c.name →
        (accept_filtered_file e c s).sctx.collection_childs.at? name
          = s.collection_childs.at? name := by
  obtain ⟨id, hid, hch⟩ := accept_childs e c s
  refine ⟨id, hid, ?_, fun name hne => ?_⟩
  · rw [childs_of_add_child s _ c.name c.name id hch, if_pos rfl]
  · rw [hch, at?_add_child, if_neg hne]

/-- C11 on the merge of the known game `/games/a.zip` for `RetroB`: its id is appended to the
empty child list of `RetroB`, and `Retro` still has no list. -/
theorem C11_one_child_is_appended_witness :
    ∃ id, (accept_filtered_file (Example.entry "/games/a.zip" "zip") Example.retroB
        Example.seededRegistry).sctx.path_to_gameid.at? "/games/a.zip" = some id ∧
      childs_of (accept_filtered_file (Example.entry "/games/a.zip" "zip") Example.retroB
        Example.seededRegistry).sctx "RetroB" = [] ++ [id] ∧
      (accept_filtered_file (Example.entry "/games/a.zip" "zip") Example.retroB
        Example.seededRegistry).sctx.collection_childs.at? "Retro" = none := by
  obtain ⟨id, h1, h2, h3⟩ := C11_one_child_is_appended (Example.entry "/games/a.zip" "zip")
    Example.retroB Example.seededRegistry
  exact ⟨id, h1, h2, h3 "Retro" (by decide)⟩

/-! ## Tidy filters -/

theorem tidyList_dedup (l : List String) : TidyList l (VEC_REMOVE_DUPLICATES l) :=
  ⟨List.nodup_dedup l, fun _ => List.mem_dedup⟩

/-- C12: `tidy_filters` is idempotent: on a list it has tidied it changes nothing. -/
theorem C12_tidy_filters_idempotent (filters : List FileFilter) :
    tidy_filters (tidy_filters filters) = tidy_filters filters := by
  simp only [tidy_filters, List.map_map]
  apply List.map_congr_left
  intro f _
  simp only [Function.comp, VEC_REMOVE_DUPLICATES, List.dedup_idem]

/-- C13: after `tidy_filters` there are as many filters as before and each one is the tidy
form of the filter at its place: the directories, include and exclude extensions and include
and exclude files have no duplicate and the same values as before; the collection key and the
regexes are the same. -/
theorem C13_tidy_filters_dedups (filters : List FileFilter) :
    (tidy_filters filters).length = filters.length ∧
    List.Forall₂ TidyFilter filters (tidy_filters filters) := by
  refine ⟨by simp [tidy_filters], ?_⟩
  unfold tidy_filters
  rw [List.forall₂_map_right_iff]
  apply List.forall₂_same.mpr
  intro f _
  exact ⟨rfl, rfl, rfl, tidyList_dedup _, tidyList_dedup _, tidyList_dedup _,
    tidyList_dedup _, tidyList_dedup _⟩

/-! ## Inclusion in the rule matcher -/

/-- C14: an entry that meets no exclude condition passes `file_passes_filter` exactly when
its lower-cased extension (the `QString::toLower` of its suffix, whatever case conversion that
is) is in `include.extensions` or `include.regex` has a non-empty pattern that matches its
path; `rx_match` is false for a regex with an empty pattern; a filter with no include extension
and an empty include pattern passes no entry. -/
theorem C14_include_decides_the_rest :
    (∀ (fs : FileSystem) (finfo : QFileInfo) (filter : FileFilter)
        (exclude_files : List String),
      fs.toLower finfo.suffix ∉ filter.exclude.extensions →
      finfo.canonicalFilePath ∉ exclude_files →
      ¬ (filter.exclude.regex.pattern ≠ "" ∧
          filter.exclude.regex.hasMatch finfo.filePath = true) →
      (file_passes_filter fs finfo filter exclude_files = true ↔
        fs.toLower finfo.suffix ∈ filter.include_.extensions ∨
        (filter.include_.regex.pattern ≠ "" ∧
          filter.include_.regex.hasMatch finfo.filePath = true))) ∧
    (∀ (rx : QRegularExpression) (str : String), rx.pattern = "" → rx_match rx str = false) ∧
    (∀ (fs : FileSystem) (finfo : QFileInfo) (filter : FileFilter)
        (exclude_files : List String),
      filter.include_.extensions = [] → filter.include_.regex.pattern = "" →
      file_passes_filter fs finfo filter exclude_files = false) := by
  refine ⟨fun fs finfo filter exclude_files h1 h2 h3 => ?_, fun rx str h => ?_,
    fun fs finfo filter exclude_files h1 h2 => ?_⟩
  · have hx : (VEC_CONTAINS filter.exclude.extensions (fs.toLower finfo.suffix)
        || VEC_CONTAINS exclude_files finfo.canonicalFilePath
        || rx_match filter.exclude.regex finfo.filePath) = false := by
      simp only [VEC_CONTAINS, rx_match, isEmpty, Bool.or_eq_false_iff, decide_eq_false_iff_not,
        Bool.and_eq_false_iff, Bool.not_eq_false', decide_eq_true_eq]
      refine ⟨⟨h1, h2⟩, ?_⟩
      by_cases hp : filter.exclude.regex.pattern = ""
      · exact Or.inl hp
      · right
        cases hm : filter.exclude.regex.hasMatch finfo.filePath with
        | false => rfl
        | true => exact absurd ⟨hp, hm⟩ h3
    unfold file_passes_filter
    simp only [hx, Bool.false_eq_true, if_false]
    simp [VEC_CONTAINS, rx_match, isEmpty]
  · simp [rx_match, isEmpty, h]
  · unfold file_passes_filter
    simp only
    split
    · rfl
    · simp [VEC_CONTAINS, rx_match, isEmpty, h1, h2]

/-- C14 on the filter with the include extension `zip` and no exclude rule, which passes
`/games/a.zip`, and on the filter with the include extension `éxe` and no exclude rule, which
passes an entry with the extension `ÉXE`. -/
theorem C14_include_decides_the_rest_witness :
    file_passes_filter Example.gamesFs (Example.entry "/games/a.zip" "zip")
      Example.zipFilter [] = true ∧
    file_passes_filter Example.gamesFs (Example.entry "/games/B.ÉXE" "ÉXE")
      Example.exeFilter [] = true :=
  ⟨(C14_include_decides_the_rest.1 Example.gamesFs (Example.entry "/games/a.zip" "zip")
      Example.zipFilter [] (by decide) (by decide) (by decide)).mpr (Or.inl (by decide)),
    (C14_include_decides_the_rest.1 Example.gamesFs (Example.entry "/games/B.ÉXE" "ÉXE")
      Example.exeFilter [] (by decide) (by decide) (by decide)).mpr (Or.inl (by decide))⟩

/-! ## Nothing is removed -/

/-- C15: `accept_filtered_file`, `process_filter` and `process_filters` only insert and
update: whether the call returns or throws, the collections are the same, every path that had
a game id has the same id, every game id that was present is present, and every child list of
before is a prefix of the child list of after. -/
theorem C15_registry_only_grows :
    (∀ (e : QFileInfo) (c : Collection) (s : SearchContext),
      Grows s (accept_filtered_file e c s).sctx) ∧
    (∀ (fs : FileSystem) (filter : FileFilter) (s : SearchContext),
      Grows s (process_filter fs filter s).sctx) ∧
    (∀ (fs : FileSystem) (filters : List FileFilter) (s : SearchContext),
      Grows s (process_filters fs filters s).sctx) :=
  ⟨accept_grows,
    process_filter_rel Grows grows_refl (fun _ _ _ => grows_trans) accept_grows,
    process_filters_rel Grows grows_refl (fun _ _ _ => grows_trans) accept_grows⟩

/-- C15 on the registry in which `/games/a.zip` is game 0: after the filter of `/games` with
extension `zip`, and after the same filter twice, the path still has the id 0. -/
theorem C15_registry_only_grows_witness :
    (process_filter Example.gamesFs Example.zipFilter
        Example.seededRegistry).sctx.path_to_gameid.at? "/games/a.zip" = some 0 ∧
    (process_filters Example.gamesFs [Example.zipFilter, Example.zipFilter]
        Example.seededRegistry).sctx.path_to_gameid.at? "/games/a.zip" = some 0 ∧
    childs_of Example.seededRegistry "Retro"
      <+: childs_of (process_filter Example.gamesFs Example.zipFilter
        Example.seededRegistry).sctx "Retro" :=
  ⟨(C15_registry_only_grows.2.1 Example.gamesFs Example.zipFilter
      Example.seededRegistry).2.1 "/games/a.zip" 0 (by decide),
    (C15_registry_only_grows.2.2 Example.gamesFs [Example.zipFilter, Example.zipFilter]
      Example.seededRegistry).2.1 "/games/a.zip" 0 (by decide),
    (C15_registry_only_grows.2.1 Example.gamesFs Example.zipFilter
      Example.seededRegistry).2.2.2 "Retro"⟩

/-! ## Merging the same entry again -/

theorem HashMap.assign_of_at? {K V : Type} [DecidableEq K] (m : HashMap K V) (k : K) (v : V)
    (h : HashMap.at? m k = some v) : HashMap.assign m k v = m := by
  induction m with
  | nil => rfl
  | cons b m ih =>
    obtain ⟨k0, v0⟩ := b
    by_cases h0 : k0 = k
    · simp only [HashMap.at?, h0, if_true, Option.some.injEq] at h
      simp [HashMap.assign, h0, h]
    · simp only [HashMap.at?, h0, if_false] at h
      simp [HashMap.assign, h0, ih h]

theorem merge_merge (x y : String) : merge (merge x y) y = merge x y := by
  unfold merge
  by_cases h : x = ""
  · simp [h]
  · simp [h]

theorem backfill_backfill (c : Collection) (g : Game) :
    backfill c (backfill c g) = backfill c g := by
  simp [backfill, merge_merge]

/-- After a merge the path has an id, and a game of that id has nothing left to backfill
from the same collection. -/
theorem accept_settled (e : QFileInfo) (c : Collection) (s : SearchContext) :
    ∃ id, (accept_filtered_file e c s).sctx.path_to_gameid.at? e.canonicalFilePath = some id ∧
      ∀ g, (accept_filtered_file e c s).sctx.games.at? id = some g → backfill c g = g := by
  cases hp : s.path_to_gameid.at? e.canonicalFilePath with
  | some id =>
    cases hg : s.games.at? id with
    | some g =>
      rw [accept_known e c s id g hp hg]
      refine ⟨id, hp, fun g1 h1 => ?_⟩
      simp only [Outcome.sctx] at h1
      rw [HashMap.at?_assign_self _ _ _ _ hg] at h1
      cases h1
      exact backfill_backfill c g
    | none =>
      rw [accept_dangling e c s id hp hg]
      refine ⟨id, hp, fun g1 h1 => ?_⟩
      simp only [Outcome.sctx] at h1
      rw [hg] at h1
      cases h1
  | none =>
    have hnew : (s.path_to_gameid ++ [(e.canonicalFilePath, s.games.size)]).at?
        e.canonicalFilePath = some s.games.size := by
      rw [HashMap.at?_append, hp]
      simp [HashMap.at?]
    cases hg : s.games.at? s.games.size with
    | some g =>
      rw [accept_alias e c s g hp hg]
      refine ⟨_, hnew, fun g1 h1 => ?_⟩
      simp only [Outcome.sctx] at h1
      rw [HashMap.at?_assign_self _ _ _ _ hg] at h1
      cases h1
      exact backfill_backfill c g
    | none =>
      rw [accept_new e c s hp hg]
      refine ⟨_, hnew, fun g1 h1 => ?_⟩
      simp only [Outcome.sctx] at h1
      rw [HashMap.at?_append, hg] at h1
      simp only [HashMap.at?, if_true, Option.orElse] at h1
      cases h1
      exact backfill_new_game e c

/-- A merge on a registry where the path has an id and the game of that id is settled leaves
`games` and `path_to_gameid` as they are and records the id once more. -/
theorem accept_again (e : QFileInfo) (c : Collection) (r : SearchContext) (id : Nat)
    (hp : r.path_to_gameid.at? e.canonicalFilePath = some id)
    (hg : ∀ g, r.games.at? id = some g → backfill c g = g) :
    (accept_filtered_file e c r).sctx.games = r.games ∧
    (accept_filtered_file e c r).sctx.path_to_gameid = r.path_to_gameid ∧
    (accept_filtered_file e c r).sctx.collection_childs
      = add_child r.collection_childs c.name id := by
  cases hgame : r.games.at? id with
  | some g =>
    rw [accept_known e c r id g hp hgame]
    refine ⟨?_, rfl, rfl⟩
    simp only [Outcome.sctx]
    rw [hg g hgame]
    exact HashMap.assign_of_at? _ _ _ hgame
  | none =>
    rw [accept_dangling e c r id hp hgame]
    exact ⟨rfl, rfl, rfl⟩

/-- C16: merging the same entry for the same collection a second time leaves `games` and
`path_to_gameid` as the first merge left them, both when the second call runs on the registry
of the first and when it follows it in sequence; the second call only appends the same id to
the child list of `collection.name` once more. -/
theorem C16_merge_is_idempotent (e : QFileInfo) (c : Collection) (s : SearchContext) :
    (accept_filtered_file e c (accept_filtered_file e c s).sctx).sctx.games
      = (accept_filtered_file e c s).sctx.games ∧
    (accept_filtered_file e c (accept_filtered_file e c s).sctx).sctx.path_to_gameid
      = (accept_filtered_file e c s).sctx.path_to_gameid ∧
    ((accept_filtered_file e c s).andThen (accept_filtered_file e c)).sctx.games
      = (accept_filtered_file e c s).sctx.games ∧
    ((accept_filtered_file e c s).andThen (accept_filtered_file e c)).sctx.path_to_gameid
      = (accept_filtered_file e c s).sctx.path_to_gameid ∧
    ∃ id, (accept_filtered_file e c s).sctx.path_to_gameid.at? e.canonicalFilePath = some id ∧
      childs_of (accept_filtered_file e c s).sctx c.name = childs_of s c.name ++ [id] ∧
      childs_of (accept_filtered_file e c (accept_filtered_file e c s).sctx).sctx c.name
        = childs_of s c.name ++ [id] ++ [id] := by
  obtain ⟨id, hp, hg⟩ := accept_settled e c s
  obtain ⟨h1, h2, h3⟩ := accept_again e c _ id hp hg
  obtain ⟨id', hp', hch⟩ := accept_childs e c s
  rw [hp] at hp'
  cases hp'
  have hc1 : childs_of (accept_filtered_file e c s).sctx c.name = childs_of s c.name ++ [id] := by
    rw [childs_of_add_child s _ c.name c.name id hch, if_pos rfl]
  refine ⟨h1, h2, ?_, ?_, id, hp, hc1, ?_⟩
  · cases ho : accept_filtered_file e c s with
    | done s1 =>
      rw [ho] at h1
      exact h1
    | thrown s1 => rfl
  · cases ho : accept_filtered_file e c s with
    | done s1 =>
      rw [ho] at h2
      exact h2
    | thrown s1 => rfl
  · rw [childs_of_add_child _ _ c.name c.name id h3, if_pos rfl, hc1]

/-! ## The subdirectory enumerator -/

/-- C17: `all_valid_subdirs` gives the empty list for the empty root; for a non-empty root it
gives the listed subdirectories without any occurrence of the path `root/media`, the others in
their order, followed by `root/`, so the result is not empty and ends with `root/`. -/
theorem C17_all_valid_subdirs_shape (fs : FileSystem) :
    all_valid_subdirs fs "" = [] ∧
    ∀ root, root ≠ "" →
      all_valid_subdirs fs root
        = (fs.subdirs root).filter (fun d => decide (d ≠ root ++ "/media")) ++ [root ++ "/"] ∧
      all_valid_subdirs fs root ≠ [] ∧
      (all_valid_subdirs fs root).getLast? = some (root ++ "/") := by
  refine ⟨by simp [all_valid_subdirs, isEmpty], fun root hroot => ?_⟩
  have h : all_valid_subdirs fs root
      = (fs.subdirs root).filter (fun d => decide (d ≠ root ++ "/media")) ++ [root ++ "/"] := by
    simp [all_valid_subdirs, isEmpty, hroot, VEC_REMOVE_VALUE]
  refine ⟨h, ?_, ?_⟩
  · rw [h]
    simp
  · rw [h]
    simp

/-- C17 on the root `/games`, whose listing is `media`, `sub`. -/
theorem C17_all_valid_subdirs_shape_witness :
    all_valid_subdirs Example.gamesFs "/games" = ["/games/sub"] ++ ["/games/"] ∧
    (all_valid_subdirs Example.gamesFs "/games").getLast? = some "/games/" := by
  obtain ⟨h1, _, h3⟩ := (C17_all_valid_subdirs_shape Example.gamesFs).2 "/games" (by decide)
  exact ⟨h1, h3⟩

/-! ## A filter directory that is the empty string -/

/-- C18 fails for a listed file: with the empty string as only directory and the absolute
path `/games/a.zip` in `include.files`, `process_filter` creates the game `/games/a.zip` and
records it as a child of the collection. -/
theorem C18_counterexample :
    Example.emptyDirFilter.directories = [""] ∧
    Example.freshRegistry.collections.at? Example.emptyDirFilter.collection_key
      = some Example.retro ∧
    process_filter Example.rootedFs Example.emptyDirFilter Example.freshRegistry
      ≠ Outcome.done Example.freshRegistry ∧
    process_filter Example.rootedFs Example.emptyDirFilter Example.freshRegistry
      = Outcome.done
          { Example.freshRegistry with
            games := [(0, new_game (Example.entry "/games/a.zip" "zip") Example.retro)]
            path_to_gameid := [("/games/a.zip", 0)]
            collection_childs := [("Retro", [0])] } :=
  ⟨rfl, by decide, by decide, by decide⟩

theorem walk_hits_empty (fs : FileSystem) (filter : FileFilter) :
    walk_hits fs filter "" = [] := by
  simp [walk_hits, all_valid_subdirs, isEmpty]

theorem flatMap_walk_hits_empty (fs : FileSystem) (filter : FileFilter)
    (directories : List String) (h : ∀ d ∈ directories, d = "") :
    directories.flatMap (walk_hits fs filter) = [] := by
  induction directories with
  | nil => rfl
  | cons d ds ih =>
    have hd : d = "" := h d (List.mem_cons_self d ds)
    subst hd
    rw [List.flatMap_cons, walk_hits_empty, List.nil_append]
    exact ih (fun d' hd' => h d' (List.mem_cons_of_mem _ hd'))

/-- C18, amended: for a filter whose directories are all the empty string, on a registry
that knows its collection, the directory walk of `process_filter` examines nothing: the call
is the merge of the listed include files alone; the registry is returned unchanged when every
include file that resolves against the empty directory is also a resolved exclude file (so
when `include.files` is empty or none of its files resolves). -/
theorem C18_empty_directory_skips_the_walk (fs : FileSystem) (filter : FileFilter)
    (sctx : SearchContext) (collection : Collection)
    (hc : sctx.collections.at? filter.collection_key = some collection)
    (hdirs : ∀ d ∈ filter.directories, d = "") :
    (∀ d ∈ filter.directories, all_valid_subdirs fs d = []) ∧
    process_filter fs filter sctx
      = merge_entries collection (listed_hits fs filter) (Outcome.done sctx) ∧
    ((∀ p ∈ resolve_filelist fs filter.include_.files "",
        p ∈ resolve_filelist fs filter.exclude.files "") →
      process_filter fs filter sctx = Outcome.done sctx) := by
  have hproc : process_filter fs filter sctx
      = merge_entries collection (listed_hits fs filter) (Outcome.done sctx) := by
    rw [process_filter_eq_merge fs filter sctx collection hc, merged_entries,
      flatMap_walk_hits_empty fs filter _ hdirs, List.nil_append]
  refine ⟨fun d hd => ?_, hproc, fun hall => ?_⟩
  · rw [hdirs d hd]
    simp [all_valid_subdirs, isEmpty]
  · have hnil : listed_hits fs filter = [] := by
      apply List.eq_nil_iff_forall_not_mem.mpr
      intro e he
      obtain ⟨p, _, ⟨d, hd, hi⟩, hx⟩ := (mem_listed_hits fs filter e).mp he
      apply hx
      have hd0 := hdirs d hd
      subst hd0
      exact ⟨"", hd, hall p hi⟩
    rw [hproc, hnil]
    rfl

/-- C18, amended, on the filter with the empty directory whose listed file does not exist:
the registry is returned as it was. -/
theorem C18_empty_directory_skips_the_walk_witness :
    Example.emptyDirStaleFilter.directories = [""] ∧
    process_filter Example.rootedFs Example.emptyDirStaleFilter Example.freshRegistry
      = Outcome.done Example.freshRegistry :=
  ⟨rfl,
    (C18_empty_directory_skips_the_walk Example.rootedFs Example.emptyDirStaleFilter
      Example.freshRegistry Example.retro (by decide) (by decide)).2.2 (by decide)⟩

/-! ## Well-formed registries -/

theorem IdsUpTo.isSome_iff {s : SearchContext} {n : Nat} (h : IdsUpTo s n) (id : Nat) :
    (s.games.at? id).isSome = true ↔ id < n := by
  rw [HashMap.at?_isSome_iff_mem_keys, h.mem_iff, List.mem_range]

theorem idsUpTo_assign (s s' : SearchContext) (n id : Nat) (g : Game) (h : IdsUpTo s n)
    (hs : s'.games = s.games.assign id g) : IdsUpTo s' n := by
  unfold IdsUpTo at h ⊢
  rw [hs, HashMap.keys_assign]
  exact h

theorem idsUpTo_append (s s' : SearchContext) (n : Nat) (g : Game) (h : IdsUpTo s n)
    (hs : s'.games = s.games ++ [(n, g)]) : IdsUpTo s' (n + 1) := by
  unfold IdsUpTo at h ⊢
  rw [hs]
  simp only [HashMap.keys, List.map_append, List.map_cons, List.map_nil, List.range_succ]
  exact List.Perm.append_right _ h

/-- C19: on a well-formed registry (game ids exactly `0 .. n-1`, every id of `path_to_gameid`
the id of a game, no id shared by two paths) `accept_filtered_file` returns for every entry and
collection: both lookups succeed. The registry it returns is well formed again, with `n` games
when the path was known and `n + 1` when it was new, so no two paths ever share a game. -/
theorem C19_well_formed_is_kept (e : QFileInfo) (c : Collection) (s : SearchContext) (n : Nat)
    (hwf : WellFormed s n) :
    ∃ s' id g, accept_filtered_file e c s = Outcome.done s' ∧
      s'.path_to_gameid.at? e.canonicalFilePath = some id ∧
      s'.games.at? id = some g ∧
      ((s.path_to_gameid.at? e.canonicalFilePath).isSome = true → WellFormed s' n) ∧
      (s.path_to_gameid.at? e.canonicalFilePath = none → WellFormed s' (n + 1)) ∧
      (WellFormed s' n ∨ WellFormed s' (n + 1)) := by
  obtain ⟨hids, hval, hinj⟩ := hwf
  cases hp : s.path_to_gameid.at? e.canonicalFilePath with
  | some id =>
    obtain ⟨g, hg⟩ := Option.isSome_iff_exists.mp (hval _ id hp)
    have hwf' : WellFormed
        { s with
          collection_childs := add_child s.collection_childs c.name id
          games := s.games.assign id (backfill c g) } n := by
      refine ⟨idsUpTo_assign s _ n id _ hids rfl, fun p id' h => ?_, hinj⟩
      simp only
      rw [HashMap.at?_assign_isSome]
      exact hval p id' h
    exact ⟨_, id, backfill c g, accept_known e c s id g hp hg, hp,
      HashMap.at?_assign_self _ _ _ _ hg, fun _ => hwf', (fun h => by cases h), Or.inl hwf'⟩
  | none =>
    have hg := hids.at?_size
    have hn := hids.size_eq
    have hnew : (s.path_to_gameid ++ [(e.canonicalFilePath, s.games.size)]).at?
        e.canonicalFilePath = some s.games.size := by
      rw [HashMap.at?_append, hp]
      simp [HashMap.at?]
    have hgame : (s.games ++ [(s.games.size, new_game e c)]).at? s.games.size
        = some (new_game e c) := by
      rw [HashMap.at?_append, hg]
      simp [HashMap.at?]
    have hlook : ∀ p id, (s.path_to_gameid ++ [(e.canonicalFilePath, s.games.size)]).at? p
        = some id → s.path_to_gameid.at? p = some id ∨
          (s.path_to_gameid.at? p = none ∧ p = e.canonicalFilePath ∧ id = n) := by
      intro p id h
      rw [HashMap.at?_append] at h
      cases hq : s.path_to_gameid.at? p with
      | some id0 =>
        rw [hq] at h
        exact Or.inl h
      | none =>
        rw [hq] at h
        simp only [Option.orElse, HashMap.at?] at h
        split at h
        · rename_i heq
          simp only [Option.some.injEq] at h
          exact Or.inr ⟨rfl, heq.symm, by rw [← h, hn]⟩
        · cases h
    have hwf' : WellFormed
        { collections := s.collections
          games := s.games ++ [(s.games.size, new_game e c)]
          path_to_gameid := s.path_to_gameid ++ [(e.canonicalFilePath, s.games.size)]
          collection_childs := add_child s.collection_childs c.name s.games.size } (n + 1) := by
      refine ⟨?_, fun p id h => ?_, fun p q id h1 h2 => ?_⟩
      · exact idsUpTo_append s _ n _ hids (by rw [hn])
      · simp only at h ⊢
        rcases hlook p id h with h | ⟨_, _, h⟩
        · obtain ⟨g', hg'⟩ := Option.isSome_iff_exists.mp (hval p id h)
          rw [HashMap.at?_append, hg']
          rfl
        · rw [h, ← hn, hgame]
          rfl
      · simp only at h1 h2
        rcases hlook p id h1 with h1 | ⟨_, hp1, hid1⟩
        · rcases hlook q id h2 with h2 | ⟨_, _, hid2⟩
          · exact hinj p q id h1 h2
          · have := (hids.isSome_iff id).mp (hval p id h1)
            omega
        · rcases hlook q id h2 with h2 | ⟨_, hq2, _⟩
          · have := (hids.isSome_iff id).mp (hval q id h2)
            omega
          · rw [hp1, hq2]
    exact ⟨_, s.games.size, new_game e c, accept_new e c s hp hg, hnew, hgame,
      (fun h => by cases h), fun _ => hwf', Or.inr hwf'⟩

theorem wellFormed_seededRegistry : WellFormed Example.seededRegistry 1 := by
  refine ⟨by decide, fun p id h => ?_, fun p q id h1 h2 => ?_⟩
  · simp only [Example.seededRegistry, HashMap.at?] at h
    split at h
    · cases h
      rfl
    · cases h
  · simp only [Example.seededRegistry, HashMap.at?] at h1 h2
    split at h1
    · split at h2
      · rename_i hp hq
        rw [← hp, ← hq]
      · cases h2
    · cases h1

/-- C19 on the registry with the one game `/games/a.zip`: the new path `/games/sub/b.zip` is
merged and the registry is well formed with two games. -/
theorem C19_well_formed_is_kept_witness :
    WellFormed Example.seededRegistry 1 ∧
    ∃ s', accept_filtered_file (Example.entry "/games/sub/b.zip" "zip") Example.retro
        Example.seededRegistry = Outcome.done s' ∧ WellFormed s' 2 := by
  obtain ⟨s', _, _, h, _, _, _, hnew, _⟩ :=
    C19_well_formed_is_kept (Example.entry "/games/sub/b.zip" "zip") Example.retro
      Example.seededRegistry 1 wellFormed_seededRegistry
  exact ⟨wellFormed_seededRegistry, s', h, hnew (by decide)⟩

/-! ## Child lists keep every recorded id -/

/-- A returning sequence of merges appends to the child list of the collection the ids of its
entries, one per entry and in order, and leaves the other child lists as they are. -/
theorem merge_entries_ids (c : Collection) (es : List QFileInfo) (s s' : SearchContext)
    (hs : NoDangling s) (h : merge_entries c es (Outcome.done s) = Outcome.done s') :
    ∃ ids, childs_of s' c.name = childs_of s c.name ++ ids ∧
      ids.map some = es.map (fun e => s'.path_to_gameid.at? e.canonicalFilePath) ∧
      ∀ name, name ≠ c.name → childs_of s' name = childs_of s name := by
  induction es generalizing s with
  | nil =>
    cases h
    exact ⟨[], by simp, by simp, fun _ _ => rfl⟩
  | cons x xs ih =>
    obtain ⟨s1, id, h1, hn1, hp1, hc1⟩ := accept_done x c s hs
    obtain ⟨id', _, hch⟩ := accept_childs x c s
    rw [h1] at hch
    simp only [Outcome.sctx] at hch
    rw [merge_entries_cons] at h
    simp only [Outcome.andThen, h1] at h
    obtain ⟨ids, hids, hmap, hother⟩ := ih s1 hn1 h
    have hg := merge_entries_rel Grows grows_refl (fun _ _ _ => grows_trans) c
      (fun e s => accept_grows e c s) xs (Outcome.done s1)
    rw [h] at hg
    simp only [Outcome.sctx] at hg
    refine ⟨id :: ids, ?_, ?_, fun name hne => ?_⟩
    · rw [hids, hc1]
      simp
    · simp only [List.map_cons, hmap, hg.2.1 _ _ hp1]
    · rw [hother name hne, childs_of_add_child s s1 c.name name id' hch, if_neg hne]

theorem count_two_of_map (ids : List Nat) (f : QFileInfo → Option Nat) (xs ys : List QFileInfo)
    (h : ids.map some = (xs ++ ys).map f) (id : Nat) (x y : QFileInfo)
    (hx : x ∈ xs) (hy : y ∈ ys) (hfx : f x = some id) (hfy : f y = some id) :
    2 ≤ ids.count id := by
  rw [List.map_append] at h
  obtain ⟨l1, l2, rfl, h1, h2⟩ := List.map_eq_append_iff.mp h
  have hinj : Function.Injective (some : Nat → Option Nat) := fun a b hab => by
    cases hab
    rfl
  have m1 : id ∈ l1 := by
    rw [← List.mem_map_of_injective hinj, h1, ← hfx]
    exact List.mem_map_of_mem f hx
  have m2 : id ∈ l2 := by
    rw [← List.mem_map_of_injective hinj, h2, ← hfy]
    exact List.mem_map_of_mem f hy
  rw [List.count_append]
  have c1 := List.count_pos_iff.mpr m1
  have c2 := List.count_pos_iff.mpr m2
  omega

/-- C20: on a registry that knows the filter's collection and has no dangling id, one
`process_filter` call returns and appends to the child list of the collection one id per
merged entry, in order: as many ids as there are walk hits plus distinct resolved include files
that are in no resolved exclude list; nothing is deduplicated, so the id of an entry that
passes the walk and whose canonical path is also such an include file is appended at least
twice. The other child lists are as before. -/
theorem C20_child_lists_keep_duplicates (fs : FileSystem) (filter : FileFilter)
    (sctx : SearchContext) (collection : Collection)
    (hc : sctx.collections.at? filter.collection_key = some collection)
    (hs : NoDangling sctx) :
    ∃ s' ids, process_filter fs filter sctx = Outcome.done s' ∧
      childs_of s' collection.name = childs_of sctx collection.name ++ ids ∧
      (∀ name, name ≠ collection.name → childs_of s' name = childs_of sctx name) ∧
      ids.map some
        = (merged_entries fs filter).map
            (fun e => s'.path_to_gameid.at? e.canonicalFilePath) ∧
      ids.length
        = (filter.directories.map (fun d => (walk_hits fs filter d).length)).sum
          + ((all_files fs filter.include_.files filter.directories).filter
              (fun p => !VEC_CONTAINS
                (all_files fs filter.exclude.files filter.directories) p)).length ∧
      (all_files fs filter.include_.files filter.directories).Nodup ∧
      (∀ (e : QFileInfo) (d : String), d ∈ filter.directories →
        (∃ subdir ∈ all_valid_subdirs fs d, e ∈ fs.entries subdir) →
        file_passes_filter fs e filter (resolve_filelist fs filter.exclude.files d) = true →
        (∃ d' ∈ filter.directories,
          e.canonicalFilePath ∈ resolve_filelist fs filter.include_.files d') →
        (¬ ∃ d' ∈ filter.directories,
          e.canonicalFilePath ∈ resolve_filelist fs filter.exclude.files d') →
        (fs.fileInfo e.canonicalFilePath).canonicalFilePath = e.canonicalFilePath →
        ∃ id, s'.path_to_gameid.at? e.canonicalFilePath = some id ∧ 2 ≤ ids.count id) := by
  obtain ⟨s', hdone, hn'⟩ := process_filter_done fs filter sctx collection hc hs
  have hm := hdone
  rw [process_filter_eq_merge fs filter sctx collection hc] at hm
  obtain ⟨ids, hids, hmap, hother⟩ := merge_entries_ids collection _ sctx s' hs hm
  refine ⟨s', ids, hdone, hids, hother, hmap, ?_, List.nodup_dedup _, ?_⟩
  · have hl := congrArg List.length hmap
    simp only [List.length_map] at hl
    rw [hl, merged_entries, List.length_append, List.length_flatMap, listed_hits,
      List.length_map]
    rfl
  · intro e d hd hlisted hpass hinc hexc hcan
    have hw : e ∈ filter.directories.flatMap (walk_hits fs filter) :=
      List.mem_flatMap.mpr ⟨d, hd, (mem_walk_hits fs filter d e).mpr ⟨hlisted, hpass⟩⟩
    have hl : fs.fileInfo e.canonicalFilePath ∈ listed_hits fs filter :=
      (mem_listed_hits fs filter _).mpr ⟨_, rfl, hinc, hexc⟩
    obtain ⟨id, hid, _, _⟩ := merge_entries_records collection _ sctx s' hs hm e
      (by rw [merged_entries]; exact List.mem_append_left _ hw)
    refine ⟨id, hid, ?_⟩
    rw [merged_entries] at hmap
    exact count_two_of_map ids _ _ _ hmap id e _ hw hl hid (by simp only [hcan, hid])

/-- C20 on the filter of `/games` with extension `zip` that also lists `a.zip`: the walk
merges `sub/b.zip` and `a.zip`, the list `a.zip` again, and `Retro` has the children
`[0, 1, 1]`. -/
theorem C20_child_lists_keep_duplicates_witness :
    (process_filter Example.gamesFs Example.twiceFilter
        Example.freshRegistry).sctx.collection_childs = [("Retro", [0, 1, 1])] ∧
    ∃ s' ids, process_filter Example.gamesFs Example.twiceFilter Example.freshRegistry
        = Outcome.done s' ∧
      childs_of s' "Retro" = [] ++ ids ∧
      ids.length = 2 + 1 ∧
      ∃ id, s'.path_to_gameid.at? "/games/a.zip" = some id ∧ 2 ≤ ids.count id := by
  obtain ⟨s', ids, h1, h2, _, _, h5, _, h7⟩ :=
    C20_child_lists_keep_duplicates Example.gamesFs Example.twiceFilter Example.freshRegistry
      Example.retro (by decide) (by decide)
  refine ⟨by decide, s', ids, h1, h2, ?_, ?_⟩
  · rw [h5]
    decide
  · exact h7 (Example.entry "/games/a.zip" "zip") "/games" (by decide)
      ⟨"/games/", by decide, by decide⟩ (by decide) ⟨"/games", by decide, by decide⟩
      (by decide) (by decide)


end Pegasus
